import Mathlib

/-!
Verification development for the sneakystorage-backend repository
(`project_noahs_ark_Version2.py`): a catalogue ("Shop Manual") of biological
structures built by parsing fixed-column PDB text into atom records,
deriving categorical features, computing two percentage scores, and
appending entries to an ordered catalogue that serializes to JSON.

Modelling conventions:
* Python strings are embedded as `List Char` (`PyStr`); Python slicing
  `s[a:b]` (which clamps out-of-range bounds) is `pySlice`, and indexing
  `s[i]` (which raises on out-of-range) is `List.get?`.
* Python `int(...)` / `float(...)` conversions are embedded as `Option`
  valued parsers (`pyIntConv`, `pyFloatConv`); a `none` result corresponds to the
  conversion raising `ValueError`, which the source's `try/except` catches.
  Exact values are carried in `ℚ` (Python floats are modelled by the exact
  decimal value written in the text; `inf`/`nan` literals and `_` digit
  separators are outside the scope of any claim and are not modelled).
* `str.splitlines` is modelled for the `'\n'` line terminator, which is the
  only terminator relevant to the claims.
* Network fetches (`fetch_pdb`) are an external collaborator: the audit
  operations take the fetched text as an explicit argument.
* Python dicts are embedded as insertion-ordered association lists.
-/

abbrev PyStr := List Char

/-- Python slice `s[a:b]` on a string: clamps both bounds to the length. -/
def pySlice (s : PyStr) (a b : Nat) : PyStr := (s.take b).drop a

/-- Whitespace recognized by Python `str.strip()` (the ASCII cases). -/
def pyIsSpace (c : Char) : Bool :=
  c == ' ' || c == '\t' || c == '\n' || c == '\r' || c == '\x0b' || c == '\x0c'

/-- Python `str.strip()`: drop leading and trailing whitespace. -/
def pyStrip (s : PyStr) : PyStr :=
  ((s.dropWhile pyIsSpace).reverse.dropWhile pyIsSpace).reverse

/-- Helper for `pySplitlines`: split at every `'\n'`, keeping a final empty
segment when the text ends with a newline. -/
def splitNl : PyStr → List PyStr
  | [] => [[]]
  | c :: r =>
    if c = '\n' then [] :: splitNl r
    else
      match splitNl r with
      | [] => [[c]]
      | l :: ls => (c :: l) :: ls

/-- Python `str.splitlines()` restricted to the `'\n'` terminator: like
splitting on `'\n'`, except that the empty text yields no lines and a
trailing newline does not produce a final empty line. -/
def pySplitlines (s : PyStr) : List PyStr :=
  match s with
  | [] => []
  | _ =>
    if s.getLast? = some '\n' then (splitNl s).dropLast else splitNl s

/-- Numeric value of a big-endian string of decimal digit characters. -/
def valNat (s : PyStr) : Nat :=
  s.foldl (fun a c => a * 10 + (c.toNat - 48)) 0

/-- Parse a nonempty all-digit string to a natural number, as consumed by
Python `int`/`float` after sign handling. -/
def digitsNat (s : PyStr) : Option Nat :=
  if s ≠ [] ∧ s.all Char.isDigit then some (valNat s) else none

/-- Python `int(s)`: strip surrounding whitespace, allow one optional sign,
then require a nonempty run of decimal digits. `none` models `ValueError`. -/
def pyIntConv (s : PyStr) : Option Int :=
  match pyStrip s with
  | '-' :: r => (digitsNat r).map (fun n => -(n : Int))
  | '+' :: r => (digitsNat r).map (fun n => (n : Int))
  | r => (digitsNat r).map (fun n => (n : Int))

/-- Decimal-scaled value `m / 10 ^ e`, the exact value of a float literal. -/
def decValue (m : Int) (e : Nat) : ℚ := (m : ℚ) / 10 ^ e

/-- Parse the optional exponent suffix of a float literal, returning the
exponent (`0` when the remainder is empty). -/
def floatExp (s : PyStr) : Option Int :=
  match s with
  | [] => some 0
  | 'e' :: r =>
    match r with
    | '-' :: d => (digitsNat d).map (fun n => -(n : Int))
    | '+' :: d => (digitsNat d).map (fun n => (n : Int))
    | d => (digitsNat d).map (fun n => (n : Int))
  | 'E' :: r =>
    match r with
    | '-' :: d => (digitsNat d).map (fun n => -(n : Int))
    | '+' :: d => (digitsNat d).map (fun n => (n : Int))
    | d => (digitsNat d).map (fun n => (n : Int))
  | _ => none

/-- Combine integer-part digits, fraction digits and an exponent into a
decimal-scaled representation `(m, e)` with value `m / 10 ^ e`. -/
def scaleDec (ip fp : PyStr) (ex : Int) : Int × Nat :=
  let m : Int := (valNat ip * 10 ^ fp.length + valNat fp : Nat)
  let d : Nat := fp.length
  match ex with
  | .ofNat p => (m * 10 ^ p, d)
  | .negSucc p => (m, d + (p + 1))

/-- Unsigned body of a Python float literal: `digits`, `digits.digits`,
`digits.`, or `.digits`, with an optional exponent. Returns the exact value
in decimal-scaled form. -/
def pyFloatBody (s : PyStr) : Option (Int × Nat) :=
  let ip := s.takeWhile Char.isDigit
  let rest := s.drop ip.length
  match rest with
  | '.' :: r2 =>
    let fp := r2.takeWhile Char.isDigit
    let rest2 := r2.drop fp.length
    if ip = [] ∧ fp = [] then none
    else (floatExp rest2).map (scaleDec ip fp)
  | rest' =>
    if ip = [] then none else (floatExp rest').map (scaleDec ip [])

/-- Python `float(s)` in decimal-scaled form: strip whitespace, optional
sign, then the literal body. `none` models `ValueError`. -/
def pyFloatRep (s : PyStr) : Option (Int × Nat) :=
  match pyStrip s with
  | '-' :: r => (pyFloatBody r).map (fun p => (-p.1, p.2))
  | '+' :: r => pyFloatBody r
  | r => pyFloatBody r

/-- Python `float(s)` as an exact rational value. -/
def pyFloatConv (s : PyStr) : Option ℚ :=
  (pyFloatRep s).map (fun p => decValue p.1 p.2)

/-- One parsed PDB atom record, as built by `DataFetcher.parse_pdb_to_json`
for an `ATOM`/`HETATM` line (source lines 59-68). -/
structure AtomRecord where
  serial : Int
  name : PyStr
  resName : PyStr
  chainID : Char
  resSeq : Int
  x : ℚ
  y : ℚ
  z : ℚ
deriving DecidableEq, Repr

/-- The result of `parse_pdb_to_json`: header classification (present iff a
`HEADER` line was seen; the last one wins) plus the ordered atom list. -/
structure ParsedStructure where
  classification : Option PyStr
  atoms : List AtomRecord
deriving DecidableEq, Repr

def kHEADER : PyStr := "HEADER".data

def kATOM : PyStr := "ATOM".data

def kHETATM : PyStr := "HETATM".data

/-- Body of the `try` block of `parse_pdb_to_json` for one atom-tagged line:
each field extraction/conversion in source order; any failure (modelled as
`none`) corresponds to the exception swallowed by `except Exception: pass`. -/
def parseAtomLine (ln : PyStr) : Option AtomRecord := do
  let serial ← pyIntConv (pySlice ln 6 11)
  let nm := pyStrip (pySlice ln 12 16)
  let rn := pyStrip (pySlice ln 17 20)
  let ch ← ln[21]?
  let rs ← pyIntConv (pySlice ln 22 26)
  let x ← pyFloatConv (pySlice ln 30 38)
  let y ← pyFloatConv (pySlice ln 38 46)
  let z ← pyFloatConv (pySlice ln 46 54)
  some ⟨serial, nm, rn, ch, rs, x, y, z⟩

/-- Process one line of PDB text into the accumulating structure, mirroring
the loop body of `parse_pdb_to_json`. -/
def parseLineInto (d : ParsedStructure) (ln : PyStr) : ParsedStructure :=
  if kHEADER.isPrefixOf ln then
    { d with classification := some (pyStrip (pySlice ln 10 50)) }
  else if kATOM.isPrefixOf ln || kHETATM.isPrefixOf ln then
    match parseAtomLine ln with
    | some a => { d with atoms := d.atoms ++ [a] }
    | none => d
  else d

/-- `DataFetcher.parse_pdb_to_json` (source lines 52-71). -/
def parse_pdb_to_json (pdb_text : PyStr) : ParsedStructure :=
  (pySplitlines pdb_text).foldl parseLineInto ⟨none, []⟩

/-- The atom record (if any) contributed by a single line. -/
def lineAtom (ln : PyStr) : Option AtomRecord :=
  if kHEADER.isPrefixOf ln then none
  else if kATOM.isPrefixOf ln || kHETATM.isPrefixOf ln then parseAtomLine ln
  else none

/-- `Scorer.compute_geps` (source lines 77-80): sum of the eight category
integers, normalized by the maximum sum 24 to a percentage. -/
def compute_geps (modality material spatial functional dynamic pathology
    multi_physics efficiency : Int) : ℚ :=
  let score := [modality, material, spatial, functional, dynamic, pathology,
    multi_physics, efficiency].sum
  ((score : ℚ) / 24) * 100

/-- `Scorer.compute_qgeps` (source lines 81-84): sum of the four category
integers, normalized by the maximum sum 12 to a percentage. -/
def compute_qgeps (coherence advantage shielding evidence : Int) : ℚ :=
  let score := [coherence, advantage, shielding, evidence].sum
  ((score : ℚ) / 12) * 100

def lineW1 : PyStr :=
  ("ATOM" ++ "  " ++ "    1" ++ " " ++ "FE  " ++ " " ++ "MAG" ++ " " ++ "A"
    ++ "  10" ++ "    " ++ "   1.000" ++ "   2.000" ++ "   3.000").data

def lineW2 : PyStr :=
  ("ATOM" ++ "  " ++ "    2" ++ " " ++ "MN  " ++ " " ++ "PHE" ++ " " ++ "B"
    ++ "  11" ++ "    " ++ "   4.000" ++ "   5.000" ++ "   6.000").data

def lineBadW : PyStr := "ATOM SHORT".data

def textW2 : PyStr := lineW1 ++ '\n' :: lineBadW ++ '\n' :: lineW2

def textW2' : PyStr := lineW1 ++ '\n' :: lineW2

/-- Decimal digit character for a digit value 0-9. -/
def digitChar : Nat → Char
  | 0 => '0' | 1 => '1' | 2 => '2' | 3 => '3' | 4 => '4'
  | 5 => '5' | 6 => '6' | 7 => '7' | 8 => '8' | _ => '9'

/-- Little-endian decimal digits of `n` (empty for 0), with fuel. -/
def natDigitsAux : Nat → Nat → List Char
  | 0, _ => []
  | _ + 1, 0 => []
  | f + 1, n + 1 => digitChar ((n + 1) % 10) :: natDigitsAux f ((n + 1) / 10)

/-- Big-endian decimal digits of `n` (empty for 0). -/
def natDigitsBE (n : Nat) : PyStr := (natDigitsAux n n).reverse

/-- Decimal rendering of a natural number. -/
def printNat (n : Nat) : PyStr := if n = 0 then ['0'] else natDigitsBE n

/-- Decimal rendering of an integer. -/
def printInt (n : Int) : PyStr :=
  if n < 0 then '-' :: printNat n.natAbs else printNat n.natAbs

/-- One Python value as stored in a catalogue entry: the JSON-representable
shapes the program's data model uses (`None`, int, float, string, or the
parsed atom list). Floats are carried as exact rationals. -/
inductive FVal where
  | fnull
  | fint (n : Int)
  | ffloat (q : ℚ)
  | fstr (s : PyStr)
  | fatoms (atoms : List AtomRecord)
deriving DecidableEq, Repr

/-- A Python dict with string keys, as an insertion-ordered association
list: one `CatalogueEntry` (or one `TargetDescriptor`). -/
abbrev Entry := List (PyStr × FVal)

/-- Python `d[k]` / first step of `d.get(k)`: first binding of the key. -/
def dictFind (e : Entry) (k : PyStr) : Option FVal :=
  (e.find? (fun p => p.1 == k)).map Prod.snd

/-- Python `d.get(k, dflt)`. -/
def dictGetD (e : Entry) (k : PyStr) (dflt : FVal) : FVal :=
  (dictFind e k).getD dflt

/-- `ShopManual.add_entry` (source lines 20-21): append at the end. -/
def add_entry (entries : List Entry) (entry : Entry) : List Entry :=
  entries ++ [entry]

def kPartID : PyStr := "PartID".data

/-- Python `==` between a stored value and a string, as used by
`get_entry_by_id`: true exactly for an equal string value. -/
def pyEqStr (v : FVal) (s : PyStr) : Bool :=
  match v with
  | .fstr t => t == s
  | _ => false

/-- `ShopManual.get_entry_by_id` (source lines 26-30): linear scan for the
first entry whose `PartID` equals the requested id; empty dict when none. -/
def get_entry_by_id : List Entry → PyStr → Entry
  | [], _ => []
  | e :: rest, part_id =>
    if pyEqStr (dictGetD e kPartID .fnull) part_id then e
    else get_entry_by_id rest part_id

/-- The feature mapping built by `identify_quantum_features`. -/
structure QuantumFeatures where
  aromatic_rings : Nat
  chiral_centers : Nat
  metal_clusters : Nat
  radical_pairs : Nat
  decoherence : PyStr
deriving DecidableEq, Repr

def aromaticResidues : List PyStr := ["PHE".data, "TRP".data, "TYR".data]

def chiralResidues : List PyStr :=
  ["ALA".data, "VAL".data, "LEU".data, "ILE".data, "THR".data, "SER".data]

def metalNames : List PyStr := ["FE".data, "MN".data, "CU".data, "MG".data]

def sDecoherence : PyStr := "Oxygen / Thermal Noise".data

/-- `QuantumAuditor.identify_quantum_features` (source lines 156-163). -/
def identify_quantum_features (pdb_json : ParsedStructure) : QuantumFeatures :=
  { aromatic_rings :=
      pdb_json.atoms.countP (fun atom => decide (atom.resName ∈ aromaticResidues)),
    chiral_centers :=
      pdb_json.atoms.countP (fun atom => decide (atom.resName ∈ chiralResidues)),
    metal_clusters :=
      pdb_json.atoms.countP (fun atom => decide (atom.name ∈ metalNames)),
    radical_pairs :=
      if "FAD".data ∈ pdb_json.atoms.map AtomRecord.resName then 1 else 0,
    decoherence := sDecoherence }

def kBiologicalStructure : PyStr := "BiologicalStructure".data

def kInorganicCore : PyStr := "InorganicCore".data

def kPrimaryFunction : PyStr := "PrimaryFunction".data

def kSecondaryFunction : PyStr := "SecondaryFunction".data

def kGEPS : PyStr := "GEPS_Score".data

def kFailEng : PyStr := "FailureMode_Engineering".data

def kFailBio : PyStr := "FailureMode_Biological".data

def kDataSources : PyStr := "DataSources".data

def kValidationPath : PyStr := "ValidationPath".data

def kAtoms : PyStr := "Atoms".data

def kQuantumPrimitive : PyStr := "QuantumPrimitive".data

def kQGEPS : PyStr := "Q-GEPS_Score".data

def kDecoherenceSource : PyStr := "DecoherenceSource".data

def kProposedQuantumFunction : PyStr := "ProposedQuantumFunction".data

def kQuantumValidationPath : PyStr := "QuantumValidationPath".data

def kPDB : PyStr := "PDB".data

def kName : PyStr := "Name".data

def kInorganic : PyStr := "Inorganic".data

def kFailureModeEngineering : PyStr := "FailureModeEngineering".data

def kFailureModeBiological : PyStr := "FailureModeBiological".data

def sNone : PyStr := "None".data

def sUnknown : PyStr := "Unknown".data

def sPDBColon : PyStr := "PDB:".data

def sStructuralAnalysis : PyStr := "Structural Analysis".data

def sQuantumPrimitiveV : PyStr := "Quantum Sensor / Qubit Candidate".data

def sProposedQF : PyStr := "Magnetoreception / Coherent Energy Transport".data

def sQuantumVP : PyStr := "2D Spectroscopy / Pulsed EPR".data

/-- Python `str(v)` (an f-string interpolation) for the value shapes a
target descriptor holds at its `PDB` key: a string renders verbatim, the
missing-key default `None` renders as `None`, an int in decimal. The
remaining shapes are never interpolated by the program and render empty. -/
def strOfFVal (v : FVal) : PyStr :=
  match v with
  | .fstr s => s
  | .fnull => sNone
  | .fint n => printInt n
  | .ffloat _ => []
  | .fatoms _ => []

/-- `AdaptiveAutoAuditor.audit_structure` (source lines 96-115), with the
network fetch abstracted: `pdb_text` is the text `fetch_pdb` returned for
the target's accession id. `none` models the `KeyError` that
`target["PartID"]` raises when the key is missing; otherwise the assembled
entry is appended to the catalogue and returned. -/
def audit_structure (target : Entry) (pdb_text : PyStr) (sm : List Entry) :
    Option (Entry × List Entry) :=
  let pdb_id := dictGetD target kPDB .fnull
  let pdb_json := parse_pdb_to_json pdb_text
  let geps := compute_geps 3 3 3 3 3 3 3 3
  match dictFind target kPartID with
  | none => none
  | some pid =>
    let entry : Entry := [
      (kPartID, pid),
      (kBiologicalStructure, dictGetD target kName .fnull),
      (kInorganicCore, dictGetD target kInorganic (.fstr sNone)),
      (kPrimaryFunction, dictGetD target kPrimaryFunction (.fstr sUnknown)),
      (kSecondaryFunction, dictGetD target kSecondaryFunction (.fstr sUnknown)),
      (kGEPS, .ffloat geps),
      (kFailEng, dictGetD target kFailureModeEngineering (.fstr [])),
      (kFailBio, dictGetD target kFailureModeBiological (.fstr [])),
      (kDataSources, .fstr (sPDBColon ++ strOfFVal pdb_id)),
      (kValidationPath, .fstr sStructuralAnalysis),
      (kAtoms, .fatoms pdb_json.atoms)]
    some (entry, add_entry sm entry)

/-- `QuantumAuditor.audit_quantum_candidate` (source lines 133-155), with
the network fetch abstracted: `pdb_text` is the text `fetch_pdb` returned
for `pdb_id`. The quantum score inputs are derived from the extracted
features by Python truthiness of the counts/flag. -/
def audit_quantum_candidate (pdb_id part_id nm : PyStr) (pdb_text : PyStr)
    (sm : List Entry) : Entry × List Entry :=
  let pdb_json := parse_pdb_to_json pdb_text
  let quantum_features := identify_quantum_features pdb_json
  let qgeps := compute_qgeps
    (if quantum_features.aromatic_rings ≠ 0 then 3 else 1)
    (if quantum_features.radical_pairs ≠ 0 then 3 else 1)
    (if quantum_features.metal_clusters ≠ 0 then 3 else 1)
    2
  let entry : Entry := [
    (kPartID, .fstr part_id),
    (kBiologicalStructure, .fstr nm),
    (kQuantumPrimitive, .fstr sQuantumPrimitiveV),
    (kQGEPS, .ffloat qgeps),
    (kDecoherenceSource, .fstr quantum_features.decoherence),
    (kProposedQuantumFunction, .fstr sProposedQF),
    (kQuantumValidationPath, .fstr sQuantumVP),
    (kDataSources, .fstr (sPDBColon ++ pdb_id))]
  (entry, add_entry sm entry)

/-- The first target of `generate_targets` (source line 193). -/
def targetMAG : Entry := [
  (kPartID, .fstr "MAG-001".data),
  (kName, .fstr "Magnetosome".data),
  (kPDB, .fstr "4DYF".data),
  (kInorganic, .fstr "Magnetite".data),
  (kPrimaryFunction, .fstr "Non-Volatile Memory".data),
  (kSecondaryFunction, .fstr "Magnetometer".data),
  (kFailureModeEngineering, .fstr "Bit Flip / Array Corruption".data),
  (kFailureModeBiological, .fstr "Navigational Deficit".data)]

def headerW : PyStr := "HEADER    MAGNETIC PROTEIN".data

def textW5 : PyStr := headerW ++ '\n' :: lineW1

def entryOther : Entry :=
  [(kPartID, .fstr "BONE-001".data), (kValidationPath, .fstr "X".data)]

def entryDupA : Entry :=
  [(kPartID, .fstr "MAG-001".data), (kValidationPath, .fstr "A".data)]

def entryDupB : Entry :=
  [(kPartID, .fstr "MAG-001".data), (kValidationPath, .fstr "B".data)]

/-- Characters the JSON printer emits verbatim inside a string literal
(printable ASCII without quote or backslash, exactly the characters
`json.dumps` leaves unescaped). -/
def charOKb (c : Char) : Bool :=
  32 ≤ c.toNat && c.toNat ≤ 126 && c != '"' && c != '\\'

def strOKb (s : PyStr) : Bool := s.all charOKb

/-- Smallest exponent `e ≤ d` with `d ∣ 10 ^ e`, when one exists: a
denominator admitting one is exactly a value with a finite decimal
expansion, i.e. an exactly-representable Python float. -/
def decExpFind (d : Nat) : Option Nat :=
  (List.range (d + 1)).find? (fun e => decide (d ∣ 10 ^ e))

def floatOKb (q : ℚ) : Bool := (decExpFind q.den).isSome

def atomOKb (a : AtomRecord) : Bool :=
  strOKb a.name && strOKb a.resName && charOKb a.chainID &&
    floatOKb a.x && floatOKb a.y && floatOKb a.z

def fvalOKb : FVal → Bool
  | .fnull => true
  | .fint _ => true
  | .ffloat q => floatOKb q
  | .fstr s => strOKb s
  | .fatoms l => l.all atomOKb

def entryOKb (e : Entry) : Bool := e.all (fun p => strOKb p.1 && fvalOKb p.2)

/-- Well-formedness of a catalogue for serialization: every entry is within
the JSON-representable fragment of the data model. -/
def entriesOKb (es : List Entry) : Bool := es.all entryOKb

/-- Indentation prefix at nesting level `lvl` for `indent=2` output. -/
def indStr (lvl : Nat) : PyStr := List.replicate (2 * lvl) ' '

/-- A JSON string literal (no escapes needed within the `strOKb` fragment). -/
def printStr (s : PyStr) : PyStr := '"' :: s ++ ['"']

/-- Fraction digits of `fp`, left-padded with zeros to width `e`. -/
def fracDigits (e fp : Nat) : PyStr :=
  List.replicate (e - (natDigitsBE fp).length) '0' ++ natDigitsBE fp

/-- Exact decimal rendering of a finite-decimal rational, in the style of
`repr` on a Python float: optional sign, integer part, a dot, and at least
one fraction digit. `none` when the denominator is not a product of 2s and
5s (no such value is an exact Python float). -/
def printFloat (q : ℚ) : Option PyStr :=
  (decExpFind q.den).map (fun e0 =>
    let e := max e0 1
    let n := q.num.natAbs * (10 ^ e / q.den)
    (if q.num < 0 then ['-'] else []) ++
      printNat (n / 10 ^ e) ++ '.' :: fracDigits e (n % 10 ^ e))

/-- Items of an indented JSON container: each item on its own line at the
given level, separated by commas, exactly as `json.dumps(..., indent=2)`
lays them out. -/
def joinItems (lvl : Nat) : List PyStr → PyStr
  | [] => []
  | [x] => indStr lvl ++ x
  | x :: xs => indStr lvl ++ x ++ ',' :: '\n' :: joinItems lvl xs

/-- An indented JSON container: `[]`/`{}` when empty, otherwise the open
bracket, the item lines, and the close bracket on its own line. -/
def joinContainer (openC closeC : Char) (lvl : Nat) (items : List PyStr) : PyStr :=
  match items with
  | [] => [openC, closeC]
  | _ => openC :: '\n' :: (joinItems (lvl + 1) items ++ '\n' :: (indStr lvl ++ [closeC]))

def listMapM {α β : Type} (f : α → Option β) : List α → Option (List β)
  | [] => some []
  | a :: l => do
    let b ← f a
    let bs ← listMapM f l
    some (b :: bs)

/-- One `"key": value` line body. -/
def printPairKV (k : PyStr) (v : PyStr) : PyStr := printStr k ++ ':' :: ' ' :: v

def kserial : PyStr := "serial".data

def kname : PyStr := "name".data

def kresName : PyStr := "resName".data

def kchainID : PyStr := "chainID".data

def kresSeq : PyStr := "resSeq".data

def kxKey : PyStr := "x".data

def kyKey : PyStr := "y".data

def kzKey : PyStr := "z".data

def knull : PyStr := "null".data

/-- One atom record as a JSON object, keys in the insertion order of
`parse_pdb_to_json` (serial, name, resName, chainID, resSeq, x, y, z). -/
def printAtom (lvl : Nat) (a : AtomRecord) : Option PyStr := do
  let sx ← printFloat a.x
  let sy ← printFloat a.y
  let sz ← printFloat a.z
  some (joinContainer '\x7b' '\x7d' lvl [
    printPairKV kserial (printInt a.serial),
    printPairKV kname (printStr a.name),
    printPairKV kresName (printStr a.resName),
    printPairKV kchainID (printStr [a.chainID]),
    printPairKV kresSeq (printInt a.resSeq),
    printPairKV kxKey sx,
    printPairKV kyKey sy,
    printPairKV kzKey sz])

/-- One entry value as JSON. -/
def printFVal (lvl : Nat) : FVal → Option PyStr
  | .fnull => some knull
  | .fint n => some (printInt n)
  | .ffloat q => printFloat q
  | .fstr s => some (printStr s)
  | .fatoms l => (listMapM (printAtom (lvl + 1)) l).map (joinContainer '[' ']' lvl)

def printPair (lvl : Nat) (p : PyStr × FVal) : Option PyStr :=
  (printFVal lvl p.2).map (printPairKV p.1)

/-- One catalogue entry as a JSON object (insertion-ordered keys). -/
def printEntry (lvl : Nat) (e : Entry) : Option PyStr :=
  (listMapM (printPair (lvl + 1)) e).map (joinContainer '\x7b' '\x7d' lvl)

/-- `ShopManual.to_json` (source lines 22-23): `json.dumps(entries,
indent=2)`, modelled on the typed fragment of the data model; `none` only
outside the representable fragment (a value no run of the program stores). -/
def to_json (entries : List Entry) : Option PyStr :=
  (listMapM (printEntry 1) entries).map (joinContainer '[' ']' 0)

def isJsonWs (c : Char) : Bool := c == ' ' || c == '\n' || c == '\t' || c == '\r'

def skipWs (s : PyStr) : PyStr := s.dropWhile isJsonWs

/-- Consume an expected literal token after optional whitespace. -/
def readLit (lit s : PyStr) : Option PyStr :=
  let t := skipWs s
  if lit.isPrefixOf t then some (t.drop lit.length) else none

/-- Read a JSON string literal (within the unescaped fragment). -/
def readStr (s : PyStr) : Option (PyStr × PyStr) :=
  if (skipWs s).take 1 = ['"'] then
    if (((skipWs s).drop 1).drop
        (((skipWs s).drop 1).takeWhile (fun c => c != '"')).length).take 1
        = ['"'] then
      some (((skipWs s).drop 1).takeWhile (fun c => c != '"'),
        (((skipWs s).drop 1).drop
          (((skipWs s).drop 1).takeWhile (fun c => c != '"')).length).drop 1)
    else none
  else none

/-- Read a nonempty digit run as a natural number. -/
def readNatNum (s : PyStr) : Option (Nat × PyStr) :=
  let ds := s.takeWhile Char.isDigit
  if ds = [] then none else some (valNat ds, s.drop ds.length)

/-- Read a JSON integer (optional minus sign, digits). -/
def readInt (s : PyStr) : Option (Int × PyStr) :=
  if (skipWs s).take 1 = ['-'] then
    (readNatNum ((skipWs s).drop 1)).map (fun p => (-(p.1 : Int), p.2))
  else
    (readNatNum (skipWs s)).map (fun p => ((p.1 : Int), p.2))

/-- Signed value of an integer part and fraction-digit string. -/
def decSigned (neg : Bool) (ip : Nat) (ds : PyStr) : ℚ :=
  if neg then -((ip : ℚ) + (valNat ds : ℚ) / 10 ^ ds.length)
  else (ip : ℚ) + (valNat ds : ℚ) / 10 ^ ds.length

/-- Read the fraction digits after the decimal point. -/
def readFrac (neg : Bool) (ip : Nat) (t3 : PyStr) : Option (ℚ × PyStr) :=
  if t3.takeWhile Char.isDigit = [] then none
  else some (decSigned neg ip (t3.takeWhile Char.isDigit),
    t3.drop (t3.takeWhile Char.isDigit).length)

/-- Read the unsigned body of a JSON number that must contain a dot. -/
def readFloatBody (neg : Bool) (t1 : PyStr) : Option (ℚ × PyStr) :=
  match readNatNum t1 with
  | none => none
  | some (ip, t2) =>
    if t2.take 1 = ['.'] then readFrac neg ip (t2.drop 1) else none

/-- Read a JSON number with a decimal point, as an exact rational. -/
def readFloat (s : PyStr) : Option (ℚ × PyStr) :=
  if (skipWs s).take 1 = ['-'] then readFloatBody true ((skipWs s).drop 1)
  else readFloatBody false (skipWs s)

/-- Read a JSON number, distinguishing float (with a dot) from int. -/
def readNumFVal (s : PyStr) : Option (FVal × PyStr) :=
  match readFloat s with
  | some (q, r) => some (.ffloat q, r)
  | none => (readInt s).map (fun p => (.fint p.1, p.2))

/-- Read an expected object key and its colon. -/
def readKey (k : PyStr) (s : PyStr) : Option PyStr := do
  let (kr, s1) ← readStr s
  if kr = k then readLit [':'] s1 else none

/-- Read an expected key and an integer value. -/
def readIntField (k : PyStr) (s : PyStr) : Option (Int × PyStr) := do
  let s1 ← readKey k s
  readInt s1

/-- Read an expected key and a string value. -/
def readStrField (k : PyStr) (s : PyStr) : Option (PyStr × PyStr) := do
  let s1 ← readKey k s
  readStr s1

/-- Read an expected key and a float value. -/
def readFloatField (k : PyStr) (s : PyStr) : Option (ℚ × PyStr) := do
  let s1 ← readKey k s
  readFloat s1

/-- Read the x, y, z fields of a serialized atom object. -/
def readAtomCoords (s : PyStr) : Option ((ℚ × ℚ × ℚ) × PyStr) := do
  let (x, s1) ← readFloatField kxKey s
  let s2 ← readLit [','] s1
  let (y, s3) ← readFloatField kyKey s2
  let s4 ← readLit [','] s3
  let (z, s5) ← readFloatField kzKey s4
  some ((x, y, z), s5)

/-- Read the name, resName and chainID fields of a serialized atom object
(the chain id must be a one-character string). -/
def readAtomNames (s : PyStr) : Option ((PyStr × PyStr × Char) × PyStr) := do
  let (nm, s1) ← readStrField kname s
  let s2 ← readLit [','] s1
  let (rn, s3) ← readStrField kresName s2
  let s4 ← readLit [','] s3
  let (cs, s5) ← readStrField kchainID s4
  match cs with
  | [ch] => some ((nm, rn, ch), s5)
  | _ => none

/-- Read one serialized atom object back into an `AtomRecord`. -/
def readAtomObj (s : PyStr) : Option (AtomRecord × PyStr) := do
  let s0 ← readLit ['\x7b'] s
  let (serial, s2) ← readIntField kserial s0
  let s3 ← readLit [','] s2
  let (nms, s5) ← readAtomNames s3
  let s6 ← readLit [','] s5
  let (rs, s7) ← readIntField kresSeq s6
  let s8 ← readLit [','] s7
  let (xyz, s9) ← readAtomCoords s8
  let s10 ← readLit ['\x7d'] s9
  some (⟨serial, nms.1, nms.2.1, nms.2.2, rs, xyz.1, xyz.2.1, xyz.2.2⟩, s10)

/-- Read the comma-separated items of a nonempty atom array, up to and
including the closing bracket. -/
def readAtomsAux : Nat → PyStr → Option (List AtomRecord × PyStr)
  | 0, _ => none
  | f + 1, s => do
    let (a, s1) ← readAtomObj s
    match skipWs s1 with
    | ',' :: r => do
      let (l, r1) ← readAtomsAux f r
      some (a :: l, r1)
    | ']' :: r => some ([a], r)
    | _ => none

/-- Read a JSON array of atom objects. -/
def readAtoms (s : PyStr) : Option (List AtomRecord × PyStr) := do
  let s1 ← readLit ['['] s
  if (skipWs s1).take 1 = [']'] then some ([], (skipWs s1).drop 1)
  else readAtomsAux (s1.length + 1) s1

/-- Read one entry value, dispatching on the first character. -/
def readEntryVal (s : PyStr) : Option (FVal × PyStr) :=
  if (skipWs s).take 1 = ['"'] then
    (readStr s).map (fun p => (.fstr p.1, p.2))
  else if (skipWs s).take 1 = ['n'] then
    (readLit knull s).map (fun r => (.fnull, r))
  else if (skipWs s).take 1 = ['['] then
    (readAtoms s).map (fun p => (.fatoms p.1, p.2))
  else readNumFVal s

/-- Read the key-value pairs of a nonempty entry object, up to and
including the closing brace. -/
def readPairsAux : Nat → PyStr → Option (Entry × PyStr)
  | 0, _ => none
  | f + 1, s => do
    let (k, s1) ← readStr s
    let s2 ← readLit [':'] s1
    let (v, s3) ← readEntryVal s2
    match skipWs s3 with
    | ',' :: r => do
      let (ps, r1) ← readPairsAux f r
      some ((k, v) :: ps, r1)
    | '\x7d' :: r => some ([(k, v)], r)
    | _ => none

/-- Read one serialized entry object. -/
def readEntry (s : PyStr) : Option (Entry × PyStr) := do
  let s1 ← readLit ['\x7b'] s
  if (skipWs s1).take 1 = ['\x7d'] then some ([], (skipWs s1).drop 1)
  else readPairsAux (s1.length + 1) s1

/-- Read the comma-separated items of a nonempty entry array. -/
def readEntriesAux : Nat → PyStr → Option (List Entry × PyStr)
  | 0, _ => none
  | f + 1, s => do
    let (e, s1) ← readEntry s
    match skipWs s1 with
    | ',' :: r => do
      let (es, r1) ← readEntriesAux f r
      some (e :: es, r1)
    | ']' :: r => some ([e], r)
    | _ => none

/-- Read a JSON array of entry objects. -/
def readEntries (s : PyStr) : Option (List Entry × PyStr) := do
  let s1 ← readLit ['['] s
  if (skipWs s1).take 1 = [']'] then some ([], (skipWs s1).drop 1)
  else readEntriesAux (s1.length + 1) s1

/-- `ShopManual.load_json` (source lines 24-25): `json.loads` on the typed
fragment of JSON the catalogue serializer emits, replacing the entry
sequence wholesale; `none` models a parse error (or a document outside the
typed fragment of the data model). -/
def load_json (s : PyStr) : Option (List Entry) := do
  let (es, r) ← readEntries s
  if skipWs r = [] then some es else none

/-- Little-endian value of a digit string. -/
def valLE : PyStr → Nat
  | [] => 0
  | c :: r => (c.toNat - 48) + 10 * valLE r

/-- Head-boundary predicate: the next character (if any) fails `p`. -/
def headNotB (p : Char → Bool) : PyStr → Bool
  | [] => true
  | c :: _ => !(p c)

/-- Boundary after a printed number: next character is neither a digit nor
a dot. -/
def numBreak : PyStr → Bool
  | [] => true
  | c :: _ => !c.isDigit && !(c == '.')

def allWs (w : PyStr) : Bool := w.all isJsonWs

def entriesW7 : List Entry :=
  [[(kPartID, FVal.fstr "NOAH-001".data),
    ("GEPS_Score".data, FVal.ffloat 100),
    ("Offset".data, FVal.ffloat (-2)),
    ("Note".data, FVal.fnull),
    ("Count".data, FVal.fint (-7)),
    ("Atoms".data, FVal.fatoms
      [⟨1, "FE".data, "MAG".data, 'A', 10, 3, -4, 12⟩])],
   []]

def entryW8a : Entry :=
  [(kPartID, FVal.fstr "A-1".data), ("Count".data, FVal.fint 1)]

def entryW8b : Entry := [(kPartID, FVal.fstr "B-2".data)]

def pW8a : PyStr := (printEntry 1 entryW8a).getD []

def pW8b : PyStr := (printEntry 1 entryW8b).getD []

-- Sanity examples for the parser embedding (concrete evaluations).
example : pyIntConv "   1 ".data = some 1 := by decide

example : pyIntConv " -12".data = some (-12) := by decide

example : pyIntConv " 1 2".data = none := by decide

example : pyIntConv "".data = none := by decide

example : pyFloatRep "   1.000".data = some (1000, 3) := by decide

example : pyFloatRep " -0.5".data = some (-5, 1) := by decide

example : pyFloatRep "1e2".data = some (100, 0) := by decide

example : pyFloatRep "2.5e-1".data = some (25, 2) := by decide

example : pyFloatRep "".data = none := by decide

example : pyFloatRep " .".data = none := by decide

example : pySplitlines "a\nb".data = ["a".data, "b".data] := by decide

example : pySplitlines "a\nb\n".data = ["a".data, "b".data] := by decide

example : pySplitlines "".data = [] := by decide

example : pySplitlines "\n".data = [[]] := by decide

example : pySplitlines "a\n\nb".data = ["a".data, [].map id, "b".data] := by decide

/-- Accumulating the parse over a list of lines appends exactly the records
contributed per line, in line order. -/
theorem foldl_parseLineInto_atoms (ls : List PyStr) (d : ParsedStructure) :
    (ls.foldl parseLineInto d).atoms = d.atoms ++ ls.filterMap lineAtom := by
  induction ls generalizing d with
  | nil => simp
  | cons l ls ih =>
    rw [List.foldl_cons, List.filterMap_cons, ih]
    unfold parseLineInto lineAtom
    by_cases h1 : kHEADER.isPrefixOf l = true
    · simp [h1]
    · by_cases h2 : (kATOM.isPrefixOf l || kHETATM.isPrefixOf l) = true
      · cases hA : parseAtomLine l <;> simp [h1, h2, hA]
      · simp [h1, h2]

/-- A line tagged `ATOM` or `HETATM` is not tagged `HEADER`. -/
theorem not_header_of_atomtag (ln : PyStr)
    (h : kATOM.isPrefixOf ln = true ∨ kHETATM.isPrefixOf ln = true) :
    kHEADER.isPrefixOf ln = false := by
  rcases h with h | h
  · obtain ⟨t, ht⟩ := List.isPrefixOf_iff_prefix.mp h
    subst ht; rfl
  · obtain ⟨t, ht⟩ := List.isPrefixOf_iff_prefix.mp h
    subst ht; rfl

/-- Evaluation of the atom-line try-block when every conversion succeeds. -/
theorem parseAtomLine_fields (ln : PyStr) (serial resSeq : Int) (ch : Char)
    (x y z : ℚ)
    (hserial : pyIntConv (pySlice ln 6 11) = some serial)
    (hch : ln[21]? = some ch)
    (hresSeq : pyIntConv (pySlice ln 22 26) = some resSeq)
    (hx : pyFloatConv (pySlice ln 30 38) = some x)
    (hy : pyFloatConv (pySlice ln 38 46) = some y)
    (hz : pyFloatConv (pySlice ln 46 54) = some z) :
    parseAtomLine ln = some ⟨serial, pyStrip (pySlice ln 12 16),
      pyStrip (pySlice ln 17 20), ch, resSeq, x, y, z⟩ := by
  simp [parseAtomLine, hserial, hch, hresSeq, hx, hy, hz]

/-- On an atom-tagged line the per-line contribution is the try-block. -/
theorem lineAtom_atomtag (ln : PyStr)
    (htag : kATOM.isPrefixOf ln = true ∨ kHETATM.isPrefixOf ln = true) :
    lineAtom ln = parseAtomLine ln := by
  have hh := not_header_of_atomtag ln htag
  have ht : (kATOM.isPrefixOf ln || kHETATM.isPrefixOf ln) = true := by
    rcases htag with h | h <;> simp [h]
  simp [lineAtom, hh, ht]

/-- C1: for every input text in which an atom line is well-formed (tagged
`ATOM`/`HETATM` with numeric serial, residue-sequence and coordinate fields
at the documented fixed columns, and long enough to have a chain character),
`parse_pdb_to_json` produces for that line exactly one atom record whose
serial is the integer at columns 6-11, name the trimmed substring at columns
12-16, residue name the trimmed substring at 17-20, chain id the verbatim
character at column 21, residue sequence the integer at 22-26, and x/y/z the
floats at 30-38, 38-46, 46-54; and the output order of atom records equals
the input line order (each line contributes its own records in place, with
no deduplication). -/
theorem parse_pdb_wellformed_atom_line
    (text : PyStr) (L1 L2 : List PyStr) (ln : PyStr)
    (serial resSeq : Int) (ch : Char) (x y z : ℚ)
    (hsplit : pySplitlines text = L1 ++ ln :: L2)
    (htag : kATOM.isPrefixOf ln = true ∨ kHETATM.isPrefixOf ln = true)
    (hserial : pyIntConv (pySlice ln 6 11) = some serial)
    (hch : ln[21]? = some ch)
    (hresSeq : pyIntConv (pySlice ln 22 26) = some resSeq)
    (hx : pyFloatConv (pySlice ln 30 38) = some x)
    (hy : pyFloatConv (pySlice ln 38 46) = some y)
    (hz : pyFloatConv (pySlice ln 46 54) = some z) :
    (parse_pdb_to_json text).atoms =
      L1.filterMap lineAtom ++
        { serial := serial, name := pyStrip (pySlice ln 12 16),
          resName := pyStrip (pySlice ln 17 20), chainID := ch,
          resSeq := resSeq, x := x, y := y, z := z } ::
          L2.filterMap lineAtom := by
  have hpa := parseAtomLine_fields ln serial resSeq ch x y z hserial hch
    hresSeq hx hy hz
  have hl := lineAtom_atomtag ln htag
  rw [parse_pdb_to_json, hsplit, foldl_parseLineInto_atoms]
  simp [List.filterMap_append, hl, hpa]

/-- Coordinate-field evaluations for the concrete line `lineW1`. -/
theorem pyFloatConv_lineW1_x : pyFloatConv (pySlice lineW1 30 38) = some 1 := by
  unfold pyFloatConv
  rw [show pyFloatRep (pySlice lineW1 30 38) = some (1000, 3) from by decide]
  norm_num [decValue]

/-- Second coordinate of `lineW1`. -/
theorem pyFloatConv_lineW1_y : pyFloatConv (pySlice lineW1 38 46) = some 2 := by
  unfold pyFloatConv
  rw [show pyFloatRep (pySlice lineW1 38 46) = some (2000, 3) from by decide]
  norm_num [decValue]

/-- Third coordinate of `lineW1`. -/
theorem pyFloatConv_lineW1_z : pyFloatConv (pySlice lineW1 46 54) = some 3 := by
  unfold pyFloatConv
  rw [show pyFloatRep (pySlice lineW1 46 54) = some (3000, 3) from by decide]
  norm_num [decValue]

/-- Witness for C1 on a concrete well-formed `ATOM` line. -/
theorem parse_pdb_wellformed_atom_line_witness :
    (parse_pdb_to_json lineW1).atoms =
      [{ serial := 1, name := "FE".data, resName := "MAG".data, chainID := 'A',
         resSeq := 10, x := 1, y := 2, z := 3 }] := by
  have h := parse_pdb_wellformed_atom_line lineW1 [] [] lineW1 1 10 'A' 1 2 3
    (by decide) (Or.inl (by decide)) (by decide) (by decide) (by decide)
    pyFloatConv_lineW1_x pyFloatConv_lineW1_y pyFloatConv_lineW1_z
  simpa using h

/-- C2: the parse is a total function (the modelled `try/except` swallows
every per-ln failure, so no error reaches the caller), and any atom-tagged
line on which some field extraction or numeric conversion fails contributes
no atom record and does not affect the records produced from the other lines
of the same input: deleting the malformed line leaves the atom output
unchanged. -/
theorem parse_pdb_malformed_line_isolated
    (text text' : PyStr) (L1 L2 : List PyStr) (bad : PyStr)
    (hsplit : pySplitlines text = L1 ++ bad :: L2)
    (hfail : pyIntConv (pySlice bad 6 11) = none ∨ bad[21]? = none ∨
      pyIntConv (pySlice bad 22 26) = none ∨ pyFloatConv (pySlice bad 30 38) = none ∨
      pyFloatConv (pySlice bad 38 46) = none ∨ pyFloatConv (pySlice bad 46 54) = none)
    (hsplit' : pySplitlines text' = L1 ++ L2) :
    (parse_pdb_to_json text).atoms = (parse_pdb_to_json text').atoms := by
  have hpa : parseAtomLine bad = none := by
    unfold parseAtomLine
    rcases hfail with h | h | h | h | h | h
    · simp [h]
    · cases h1 : pyIntConv (pySlice bad 6 11) <;> simp [h1, h]
    · cases h1 : pyIntConv (pySlice bad 6 11) <;> cases h2 : bad[21]? <;>
        simp [h1, h2, h]
    · cases h1 : pyIntConv (pySlice bad 6 11) <;> cases h2 : bad[21]? <;>
        cases h3 : pyIntConv (pySlice bad 22 26) <;> simp [h1, h2, h3, h]
    · cases h1 : pyIntConv (pySlice bad 6 11) <;> cases h2 : bad[21]? <;>
        cases h3 : pyIntConv (pySlice bad 22 26) <;>
          cases h4 : pyFloatConv (pySlice bad 30 38) <;> simp [h1, h2, h3, h4, h]
    · cases h1 : pyIntConv (pySlice bad 6 11) <;> cases h2 : bad[21]? <;>
        cases h3 : pyIntConv (pySlice bad 22 26) <;>
          cases h4 : pyFloatConv (pySlice bad 30 38) <;>
            cases h5 : pyFloatConv (pySlice bad 38 46) <;>
              simp [h1, h2, h3, h4, h5, h]
  have hl : lineAtom bad = none := by
    unfold lineAtom
    by_cases hh : kHEADER.isPrefixOf bad = true
    · simp [hh]
    · by_cases ht : (kATOM.isPrefixOf bad || kHETATM.isPrefixOf bad) = true
      · simp [hh, ht, hpa]
      · simp [hh, ht]
  rw [parse_pdb_to_json, hsplit, foldl_parseLineInto_atoms,
    parse_pdb_to_json, hsplit', foldl_parseLineInto_atoms]
  simp [List.filterMap_append, hl]

/-- Witness for C2: a malformed (too short, non-numeric serial) `ATOM` line
between two well-formed ones changes nothing. -/
theorem parse_pdb_malformed_line_isolated_witness :
    (parse_pdb_to_json textW2).atoms = (parse_pdb_to_json textW2').atoms :=
  parse_pdb_malformed_line_isolated textW2 textW2' [lineW1] [lineW2] lineBadW
    (by decide) (Or.inl (by decide)) (by decide)

/-- C3: the two scoring functions are pure total functions of their integer
inputs: `compute_geps` equals the sum of its eight arguments divided by 24
times 100, and `compute_qgeps` equals the sum of its four arguments divided
by 12 times 100; `compute_geps 3 .. 3 = 100` and
`compute_qgeps 1 1 1 2 = 125/3` (= 41.666...); and since no bounds checking
is performed, inputs outside the assumed 1-3 range can produce scores
outside [0, 100] on either side, for both functions. -/
theorem scorer_sum_normalization :
    (∀ m a s f d p mp e : Int, compute_geps m a s f d p mp e =
      ((m + a + s + f + d + p + mp + e : Int) : ℚ) / 24 * 100)
    ∧ (∀ c a s e : Int, compute_qgeps c a s e =
      ((c + a + s + e : Int) : ℚ) / 12 * 100)
    ∧ compute_geps 3 3 3 3 3 3 3 3 = 100
    ∧ compute_qgeps 1 1 1 2 = 125 / 3
    ∧ (∃ v : Int, 3 < v ∧ 100 < compute_geps v v v v v v v v)
    ∧ (∃ v : Int, v < 1 ∧ compute_geps v v v v v v v v < 0)
    ∧ (∃ v : Int, 3 < v ∧ 100 < compute_qgeps v v v v)
    ∧ (∃ v : Int, v < 1 ∧ compute_qgeps v v v v < 0) := by
  refine ⟨fun m a s f d p mp e => ?_, fun c a s e => ?_, by
      norm_num [compute_geps], by norm_num [compute_qgeps],
    ⟨4, by norm_num, by norm_num [compute_geps]⟩,
    ⟨-1, by norm_num, by norm_num [compute_geps]⟩,
    ⟨4, by norm_num, by norm_num [compute_qgeps]⟩,
    ⟨-1, by norm_num, by norm_num [compute_qgeps]⟩⟩
  · simp only [compute_geps, List.sum_cons, List.sum_nil]
    push_cast
    ring
  · simp only [compute_qgeps, List.sum_cons, List.sum_nil]
    push_cast
    ring

/-- C6: feature extraction returns the aromatic-ring count as the number of
atoms with residue name in PHE/TRP/TYR, the chiral-center count over
ALA/VAL/LEU/ILE/THR/SER, the metal-cluster count over atom names
FE/MN/CU/MG, and a radical-pair flag that is 1 exactly when some atom has
residue name FAD (regardless of the other atoms) and 0 otherwise; an empty
atom list yields all-zero counts and flag, and the function is total (no
error condition exists). -/
theorem identify_quantum_features_spec (st : ParsedStructure) :
    (identify_quantum_features st).aromatic_rings =
      (st.atoms.filter (fun atom => decide (atom.resName ∈ aromaticResidues))).length
    ∧ (identify_quantum_features st).chiral_centers =
      (st.atoms.filter (fun atom => decide (atom.resName ∈ chiralResidues))).length
    ∧ (identify_quantum_features st).metal_clusters =
      (st.atoms.filter (fun atom => decide (atom.name ∈ metalNames))).length
    ∧ ((identify_quantum_features st).radical_pairs = 1 ↔
        ∃ atom ∈ st.atoms, atom.resName = "FAD".data)
    ∧ ((identify_quantum_features st).radical_pairs = 0 ↔
        ¬∃ atom ∈ st.atoms, atom.resName = "FAD".data)
    ∧ (∀ cls : Option PyStr, identify_quantum_features ⟨cls, []⟩ =
        ⟨0, 0, 0, 0, sDecoherence⟩) := by
  refine ⟨?_, ?_, ?_, ?_, ?_, ?_⟩
  · simp [identify_quantum_features, List.countP_eq_length_filter]
  · simp [identify_quantum_features, List.countP_eq_length_filter]
  · simp [identify_quantum_features, List.countP_eq_length_filter]
  · constructor
    · intro h
      by_contra hne
      simp only [identify_quantum_features] at h
      rw [if_neg] at h
      · exact one_ne_zero h.symm
      · intro hmem
        obtain ⟨atom, hmema, heq⟩ := List.mem_map.mp hmem
        exact hne ⟨atom, hmema, heq⟩
    · rintro ⟨atom, hmem, heq⟩
      simp only [identify_quantum_features]
      rw [if_pos]
      exact List.mem_map.mpr ⟨atom, hmem, heq⟩
  · constructor
    · intro h hex
      obtain ⟨atom, hmem, heq⟩ := hex
      simp only [identify_quantum_features] at h
      rw [if_pos (List.mem_map.mpr ⟨atom, hmem, heq⟩)] at h
      exact one_ne_zero h
    · intro hne
      simp only [identify_quantum_features]
      rw [if_neg]
      intro hmem
      obtain ⟨atom, hmema, heq⟩ := List.mem_map.mp hmem
      exact hne ⟨atom, hmema, heq⟩
  · intro cls
    simp [identify_quantum_features]

/-- Witness for C6 on concrete structures: a one-FAD-atom structure sets the
flag, the empty structure yields all-zero features. -/
theorem identify_quantum_features_spec_witness :
    ((identify_quantum_features (parse_pdb_to_json lineW1)).radical_pairs = 0
      ↔ ¬∃ atom ∈ (parse_pdb_to_json lineW1).atoms, atom.resName = "FAD".data)
    ∧ identify_quantum_features ⟨none, []⟩ = ⟨0, 0, 0, 0, sDecoherence⟩ :=
  ⟨(identify_quantum_features_spec (parse_pdb_to_json lineW1)).2.2.2.2.1,
   (identify_quantum_features_spec ⟨none, []⟩).2.2.2.2.2 none⟩

/-- The Q-GEPS value stored by a quantum audit, in terms of the extracted
features (shared evaluation lemma). -/
theorem audit_quantum_qgeps_value (pdb_id part_id nm pdb_text : PyStr)
    (sm : List Entry) :
    dictFind (audit_quantum_candidate pdb_id part_id nm pdb_text sm).1 kQGEPS =
      some (.ffloat (compute_qgeps
        (if (identify_quantum_features (parse_pdb_to_json pdb_text)).aromatic_rings ≠ 0
          then 3 else 1)
        (if (identify_quantum_features (parse_pdb_to_json pdb_text)).radical_pairs ≠ 0
          then 3 else 1)
        (if (identify_quantum_features (parse_pdb_to_json pdb_text)).metal_clusters ≠ 0
          then 3 else 1)
        2)) := by
  simp [audit_quantum_candidate, dictFind,
    show (kPartID == kQGEPS) = false from by decide,
    show (kBiologicalStructure == kQGEPS) = false from by decide,
    show (kQuantumPrimitive == kQGEPS) = false from by decide,
    show (kQGEPS == kQGEPS) = true from by decide]

/-- C4: every quantum audit derives the quantum score inputs from the
extracted features as coherence = 3 iff the aromatic-ring count is nonzero
else 1, advantage = 3 iff the radical-pair flag is set else 1, shielding =
3 iff the metal-cluster count is nonzero else 1, and evidence = 2 always;
consequently a structure containing an atom named FE with no FAD residue
and no aromatic residues scores (1+1+3+2)/12*100 = 175/3 = 58.33... . -/
theorem audit_quantum_input_derivation (pdb_id part_id nm pdb_text : PyStr)
    (sm : List Entry) :
    dictFind (audit_quantum_candidate pdb_id part_id nm pdb_text sm).1 kQGEPS =
      some (.ffloat (compute_qgeps
        (if (identify_quantum_features (parse_pdb_to_json pdb_text)).aromatic_rings ≠ 0
          then 3 else 1)
        (if (identify_quantum_features (parse_pdb_to_json pdb_text)).radical_pairs ≠ 0
          then 3 else 1)
        (if (identify_quantum_features (parse_pdb_to_json pdb_text)).metal_clusters ≠ 0
          then 3 else 1)
        2))
    ∧ ((∃ atom ∈ (parse_pdb_to_json pdb_text).atoms, atom.name = "FE".data) →
       (∀ atom ∈ (parse_pdb_to_json pdb_text).atoms, atom.resName ≠ "FAD".data) →
       (∀ atom ∈ (parse_pdb_to_json pdb_text).atoms, atom.resName ∉ aromaticResidues) →
       dictFind (audit_quantum_candidate pdb_id part_id nm pdb_text sm).1 kQGEPS =
         some (.ffloat (175 / 3))) := by
  refine ⟨audit_quantum_qgeps_value pdb_id part_id nm pdb_text sm, ?_⟩
  intro hFE hnoFAD hnoArom
  have harom : (identify_quantum_features (parse_pdb_to_json pdb_text)).aromatic_rings = 0 := by
    simp only [identify_quantum_features]
    rw [List.countP_eq_zero]
    intro atom hmem
    simpa using hnoArom atom hmem
  have hrad : (identify_quantum_features (parse_pdb_to_json pdb_text)).radical_pairs = 0 := by
    simp only [identify_quantum_features]
    rw [if_neg]
    intro hmem
    obtain ⟨atom, hmema, heq⟩ := List.mem_map.mp hmem
    exact hnoFAD atom hmema heq
  have hmet : (identify_quantum_features (parse_pdb_to_json pdb_text)).metal_clusters ≠ 0 := by
    simp only [identify_quantum_features]
    obtain ⟨atom, hmem, hname⟩ := hFE
    have : 0 < (parse_pdb_to_json pdb_text).atoms.countP
        (fun atom => decide (atom.name ∈ metalNames)) := by
      rw [List.countP_pos_iff]
      exact ⟨atom, hmem, by simp [hname, metalNames]⟩
    omega
  rw [audit_quantum_qgeps_value pdb_id part_id nm pdb_text sm, harom, hrad,
    if_pos hmet]
  norm_num [compute_qgeps]

/-- Witness for C4: the single-FE-atom structure parsed from `lineW1` (an FE
atom in a MAG residue: no FAD, no aromatic residues) scores 175/3. -/
theorem audit_quantum_input_derivation_witness :
    dictFind (audit_quantum_candidate "6ZU0".data "CRY-001".data
        "Cryptochrome 4".data lineW1 []).1 kQGEPS =
      some (.ffloat (175 / 3)) := by
  have hatoms : (parse_pdb_to_json lineW1).atoms =
      [{ serial := 1, name := "FE".data, resName := "MAG".data, chainID := 'A',
         resSeq := 10, x := 1, y := 2, z := 3 }] := by
    have h := parse_pdb_wellformed_atom_line lineW1 [] [] lineW1 1 10 'A' 1 2 3
      (by decide) (Or.inl (by decide)) (by decide) (by decide) (by decide)
      pyFloatConv_lineW1_x pyFloatConv_lineW1_y pyFloatConv_lineW1_z
    simpa using h
  refine (audit_quantum_input_derivation "6ZU0".data "CRY-001".data
      "Cryptochrome 4".data lineW1 []).2 ?_ ?_ ?_
  · rw [hatoms]; exact ⟨_, List.mem_cons_self _ _, rfl⟩
  · rw [hatoms]; intro atom hmem; simp at hmem; subst hmem; decide
  · rw [hatoms]; intro atom hmem; simp at hmem; subst hmem; decide

/-- Score case analysis shared by the quantum-audit range claim. -/
theorem qgeps_cases (c1 c2 c3 : Int) (h1 : c1 = 1 ∨ c1 = 3)
    (h2 : c2 = 1 ∨ c2 = 3) (h3 : c3 = 1 ∨ c3 = 3) :
    (compute_qgeps c1 c2 c3 2 = 125 / 3 ∨ compute_qgeps c1 c2 c3 2 = 175 / 3 ∨
      compute_qgeps c1 c2 c3 2 = 75 ∨ compute_qgeps c1 c2 c3 2 = 275 / 3)
    ∧ 125 / 3 ≤ compute_qgeps c1 c2 c3 2 ∧ compute_qgeps c1 c2 c3 2 ≤ 275 / 3
    ∧ compute_qgeps c1 c2 c3 2 < 100 := by
  rcases h1 with h1 | h1 <;> rcases h2 with h2 | h2 <;> rcases h3 with h3 | h3 <;>
    subst h1 <;> subst h2 <;> subst h3 <;> norm_num [compute_qgeps]

/-- C10 (implicit): every quantum audit stores a Q-GEPS score in the set
41.666..., 58.333..., 75, 91.666... (as exact rationals 125/3, 175/3, 75,
275/3); in particular it is at least 125/3, at most 275/3, and never
reaches 100, because evidence is fixed at 2 and the other three inputs are
each 1 or 3. -/
theorem audit_quantum_score_range (pdb_id part_id nm pdb_text : PyStr)
    (sm : List Entry) :
    ∃ q : ℚ,
      dictFind (audit_quantum_candidate pdb_id part_id nm pdb_text sm).1 kQGEPS =
        some (.ffloat q)
      ∧ (q = 125 / 3 ∨ q = 175 / 3 ∨ q = 75 ∨ q = 275 / 3)
      ∧ 125 / 3 ≤ q ∧ q ≤ 275 / 3 ∧ q < 100 := by
  refine ⟨_, audit_quantum_qgeps_value pdb_id part_id nm pdb_text sm,
    qgeps_cases _ _ _ (Or.symm (ite_eq_or_eq _ 3 1))
      (Or.symm (ite_eq_or_eq _ 3 1)) (Or.symm (ite_eq_or_eq _ 3 1))⟩

/-- Lookup in an association-list dict: hit on the head key. -/
theorem dictFind_cons_eq (k : PyStr) (v : FVal) (e : Entry) :
    dictFind ((k, v) :: e) k = some v := by
  simp [dictFind, List.find?_cons_of_pos]

/-- Lookup in an association-list dict: skip a non-matching head key. -/
theorem dictFind_cons_ne (k k' : PyStr) (v : FVal) (e : Entry)
    (h : (k' == k) = false) :
    dictFind ((k', v) :: e) k = dictFind e k := by
  unfold dictFind
  rw [List.find?_cons_of_neg]
  simp [h]

/-- C5: for a target whose accession (`PDB`) is `4DYF` and id (`PartID`) is
`MAG-001`, when the fetched text has one `HEADER` line and one atom line
encoding serial 1, name FE, residue MAG, chain A, resSeq 10, coordinates
(1, 2, 3), `audit_structure` returns, and appends to the catalogue, an
entry whose `DataSources` is `PDB:4DYF`, whose `Atoms` holds exactly that
one parsed record, whose `PartID` is the target id, and whose `GEPS_Score`
is 100 (computed from the fixed all-3 placeholder inputs, independent of
the parsed data). -/
theorem audit_structure_magnetosome_scenario
    (target : Entry) (pdb_text : PyStr) (sm : List Entry)
    (hdr atomline : PyStr)
    (hsplit : pySplitlines pdb_text = [hdr, atomline])
    (hhdr : kHEADER.isPrefixOf hdr = true)
    (hatom : lineAtom atomline =
      some ⟨1, "FE".data, "MAG".data, 'A', 10, 1, 2, 3⟩)
    (hpdb : dictFind target kPDB = some (.fstr "4DYF".data))
    (hpid : dictFind target kPartID = some (.fstr "MAG-001".data)) :
    ∃ e : Entry,
      audit_structure target pdb_text sm = some (e, sm ++ [e])
      ∧ dictFind e kPartID = some (.fstr "MAG-001".data)
      ∧ dictFind e kDataSources = some (.fstr "PDB:4DYF".data)
      ∧ dictFind e kAtoms =
          some (.fatoms [⟨1, "FE".data, "MAG".data, 'A', 10, 1, 2, 3⟩])
      ∧ dictFind e kGEPS = some (.ffloat 100) := by
  have hatoms : (parse_pdb_to_json pdb_text).atoms =
      [⟨1, "FE".data, "MAG".data, 'A', 10, 1, 2, 3⟩] := by
    rw [parse_pdb_to_json, hsplit, foldl_parseLineInto_atoms]
    have hh : lineAtom hdr = none := by simp [lineAtom, hhdr]
    simp [hh, hatom]
  have hds : sPDBColon ++ strOfFVal (dictGetD target kPDB .fnull) =
      "PDB:4DYF".data := by
    rw [dictGetD, hpdb]
    decide
  have hgeps : compute_geps 3 3 3 3 3 3 3 3 = 100 := by
    norm_num [compute_geps]
  refine ⟨[(kPartID, .fstr "MAG-001".data),
      (kBiologicalStructure, dictGetD target kName .fnull),
      (kInorganicCore, dictGetD target kInorganic (.fstr sNone)),
      (kPrimaryFunction, dictGetD target kPrimaryFunction (.fstr sUnknown)),
      (kSecondaryFunction, dictGetD target kSecondaryFunction (.fstr sUnknown)),
      (kGEPS, .ffloat 100),
      (kFailEng, dictGetD target kFailureModeEngineering (.fstr [])),
      (kFailBio, dictGetD target kFailureModeBiological (.fstr [])),
      (kDataSources, .fstr "PDB:4DYF".data),
      (kValidationPath, .fstr sStructuralAnalysis),
      (kAtoms, .fatoms [⟨1, "FE".data, "MAG".data, 'A', 10, 1, 2, 3⟩])],
    ?_, ?_, ?_, ?_, ?_⟩
  · unfold audit_structure
    rw [hpid]
    simp only [hatoms, hds, hgeps, add_entry]
  · exact dictFind_cons_eq _ _ _
  · rw [dictFind_cons_ne _ _ _ _ (by decide), dictFind_cons_ne _ _ _ _ (by decide),
      dictFind_cons_ne _ _ _ _ (by decide), dictFind_cons_ne _ _ _ _ (by decide),
      dictFind_cons_ne _ _ _ _ (by decide), dictFind_cons_ne _ _ _ _ (by decide),
      dictFind_cons_ne _ _ _ _ (by decide), dictFind_cons_ne _ _ _ _ (by decide),
      dictFind_cons_eq]
  · rw [dictFind_cons_ne _ _ _ _ (by decide), dictFind_cons_ne _ _ _ _ (by decide),
      dictFind_cons_ne _ _ _ _ (by decide), dictFind_cons_ne _ _ _ _ (by decide),
      dictFind_cons_ne _ _ _ _ (by decide), dictFind_cons_ne _ _ _ _ (by decide),
      dictFind_cons_ne _ _ _ _ (by decide), dictFind_cons_ne _ _ _ _ (by decide),
      dictFind_cons_ne _ _ _ _ (by decide), dictFind_cons_ne _ _ _ _ (by decide),
      dictFind_cons_eq]
  · rw [dictFind_cons_ne _ _ _ _ (by decide), dictFind_cons_ne _ _ _ _ (by decide),
      dictFind_cons_ne _ _ _ _ (by decide), dictFind_cons_ne _ _ _ _ (by decide),
      dictFind_cons_ne _ _ _ _ (by decide), dictFind_cons_eq]

/-- Witness for C5 on the concrete magnetosome target and fixture text. -/
theorem audit_structure_magnetosome_scenario_witness :
    ∃ e : Entry,
      audit_structure targetMAG textW5 [] = some (e, [] ++ [e])
      ∧ dictFind e kPartID = some (.fstr "MAG-001".data)
      ∧ dictFind e kDataSources = some (.fstr "PDB:4DYF".data)
      ∧ dictFind e kAtoms =
          some (.fatoms [⟨1, "FE".data, "MAG".data, 'A', 10, 1, 2, 3⟩])
      ∧ dictFind e kGEPS = some (.ffloat 100) := by
  have hatom : lineAtom lineW1 =
      some ⟨1, "FE".data, "MAG".data, 'A', 10, 1, 2, 3⟩ := by
    rw [lineAtom_atomtag lineW1 (Or.inl (by decide))]
    exact parseAtomLine_fields lineW1 1 10 'A' 1 2 3 (by decide) (by decide)
      (by decide) pyFloatConv_lineW1_x pyFloatConv_lineW1_y pyFloatConv_lineW1_z
  exact audit_structure_magnetosome_scenario targetMAG textW5 [] headerW lineW1
    (by decide) (by decide) hatom (by decide) (by decide)

/-- C9: `get_entry_by_id` performs a linear scan returning the first entry
whose `PartID` equals the requested id even when later duplicates exist, and
returns the empty record (not an error) when no entry matches. It is a pure
function of the catalogue: the catalogue itself is not modified. -/
theorem get_entry_by_id_first_match :
    (∀ (sm1 sm2 : List Entry) (e : Entry) (pid : PyStr),
      pyEqStr (dictGetD e kPartID .fnull) pid = true →
      (∀ e' ∈ sm1, pyEqStr (dictGetD e' kPartID .fnull) pid = false) →
      get_entry_by_id (sm1 ++ e :: sm2) pid = e)
    ∧ (∀ (sm : List Entry) (pid : PyStr),
      (∀ e' ∈ sm, pyEqStr (dictGetD e' kPartID .fnull) pid = false) →
      get_entry_by_id sm pid = []) := by
  constructor
  · intro sm1 sm2 e pid hm hnone
    induction sm1 with
    | nil => simp [get_entry_by_id, hm]
    | cons a t ih =>
      have ha := hnone a (List.mem_cons_self a t)
      rw [List.cons_append]
      show (if pyEqStr (dictGetD a kPartID .fnull) pid = true then a
        else get_entry_by_id (t ++ e :: sm2) pid) = e
      rw [if_neg (by simp [ha])]
      exact ih (fun e' he' => hnone e' (List.mem_cons_of_mem a he'))
  · intro sm pid h
    induction sm with
    | nil => rfl
    | cons a t ih =>
      have ha := h a (List.mem_cons_self a t)
      show (if pyEqStr (dictGetD a kPartID .fnull) pid = true then a
        else get_entry_by_id t pid) = []
      rw [if_neg (by simp [ha])]
      exact ih (fun e' he' => h e' (List.mem_cons_of_mem a he'))

/-- Witness for C9: first match wins over a later duplicate; a missing id
yields the empty record. -/
theorem get_entry_by_id_first_match_witness :
    get_entry_by_id [entryOther, entryDupA, entryDupB] "MAG-001".data = entryDupA
    ∧ get_entry_by_id [entryOther, entryDupA, entryDupB] "NOPE".data = [] :=
  ⟨get_entry_by_id_first_match.1 [entryOther] [entryDupB] entryDupA
      "MAG-001".data (by decide) (by decide),
   get_entry_by_id_first_match.2 [entryOther, entryDupA, entryDupB]
      "NOPE".data (by decide)⟩

theorem valNat_append_digit (xs : PyStr) (c : Char) :
    valNat (xs ++ [c]) = valNat xs * 10 + (c.toNat - 48) := by
  simp [valNat, List.foldl_append]

theorem valNat_reverse (l : PyStr) : valNat l.reverse = valLE l := by
  induction l with
  | nil => rfl
  | cons c r ih =>
    rw [List.reverse_cons, valNat_append_digit, ih, valLE]
    ring

theorem digitChar_isDigit (d : Nat) (h : d < 10) : (digitChar d).isDigit = true := by
  interval_cases d <;> decide

theorem digitChar_val (d : Nat) (h : d < 10) : (digitChar d).toNat - 48 = d := by
  interval_cases d <;> decide

theorem natDigitsAux_all_digit :
    ∀ f n, ∀ c ∈ natDigitsAux f n, c.isDigit = true := by
  intro f
  induction f with
  | zero => intro n c hc; simp [natDigitsAux] at hc
  | succ f ih =>
    intro n c hc
    match n with
    | 0 => simp [natDigitsAux] at hc
    | n + 1 =>
      simp only [natDigitsAux, List.mem_cons] at hc
      rcases hc with h | h
      · subst h; exact digitChar_isDigit _ (Nat.mod_lt _ (by norm_num))
      · exact ih _ c h

theorem valLE_natDigitsAux : ∀ f n, n ≤ f → valLE (natDigitsAux f n) = n := by
  intro f
  induction f with
  | zero => intro n h; interval_cases n; rfl
  | succ f ih =>
    intro n h
    match n with
    | 0 => rfl
    | n + 1 =>
      have hdiv : (n + 1) / 10 ≤ f := by omega
      rw [natDigitsAux, valLE, ih _ hdiv,
        digitChar_val _ (Nat.mod_lt _ (by norm_num))]
      omega

theorem valNat_natDigitsBE (n : Nat) : valNat (natDigitsBE n) = n := by
  rw [natDigitsBE, valNat_reverse, valLE_natDigitsAux _ _ le_rfl]

theorem natDigitsBE_all_digit (n : Nat) :
    ∀ c ∈ natDigitsBE n, c.isDigit = true := by
  intro c hc
  rw [natDigitsBE, List.mem_reverse] at hc
  exact natDigitsAux_all_digit n n c hc

theorem printNat_all_digit (n : Nat) : ∀ c ∈ printNat n, c.isDigit = true := by
  unfold printNat
  split
  · intro c hc
    simp only [List.mem_singleton] at hc
    subst hc; decide
  · exact natDigitsBE_all_digit n

theorem valNat_printNat (n : Nat) : valNat (printNat n) = n := by
  unfold printNat
  split
  · subst_vars; decide
  · exact valNat_natDigitsBE n

theorem printNat_ne_nil (n : Nat) : printNat n ≠ [] := by
  unfold printNat
  split
  · simp
  · rename_i h
    rw [natDigitsBE]
    simp only [ne_eq, List.reverse_eq_nil_iff]
    match n, h with
    | m + 1, _ => simp [natDigitsAux]

theorem natDigitsAux_length_le :
    ∀ f n e, n ≤ f → n < 10 ^ e → (natDigitsAux f n).length ≤ e := by
  intro f
  induction f with
  | zero => intro n e h _; interval_cases n; simp [natDigitsAux]
  | succ f ih =>
    intro n e h hlt
    match n with
    | 0 => simp [natDigitsAux]
    | n + 1 =>
      have he : e ≠ 0 := by
        intro h0; subst h0; simp at hlt
      obtain ⟨e', rfl⟩ : ∃ e', e = e' + 1 := ⟨e - 1, by omega⟩
      have hdivlt : (n + 1) / 10 < 10 ^ e' := by
        rw [Nat.div_lt_iff_lt_mul (by norm_num)]
        calc n + 1 < 10 ^ (e' + 1) := hlt
        _ = 10 ^ e' * 10 := by ring
      have hdivle : (n + 1) / 10 ≤ f := by omega
      rw [natDigitsAux]
      simp only [List.length_cons]
      have := ih ((n + 1) / 10) e' hdivle hdivlt
      omega

theorem valNat_replicate_zero (k : Nat) (ds : PyStr) :
    valNat (List.replicate k '0' ++ ds) = valNat ds := by
  induction k with
  | zero => rfl
  | succ k ih =>
    rw [List.replicate_succ, List.cons_append]
    show List.foldl _ (0 * 10 + ('0'.toNat - 48)) _ = _
    have : 0 * 10 + ('0'.toNat - 48) = 0 := by decide
    rw [this]
    exact ih

theorem fracDigits_length (e fp : Nat) (h : fp < 10 ^ e) :
    (fracDigits e fp).length = e := by
  unfold fracDigits
  rw [List.length_append, List.length_replicate]
  have hle : (natDigitsBE fp).length ≤ e := by
    rw [natDigitsBE, List.length_reverse]
    exact natDigitsAux_length_le fp fp e le_rfl h
  omega

theorem fracDigits_val (e fp : Nat) : valNat (fracDigits e fp) = fp := by
  rw [fracDigits, valNat_replicate_zero, valNat_natDigitsBE]

theorem fracDigits_all_digit (e fp : Nat) :
    ∀ c ∈ fracDigits e fp, c.isDigit = true := by
  intro c hc
  rw [fracDigits, List.mem_append] at hc
  rcases hc with h | h
  · rw [List.eq_of_mem_replicate h]; decide
  · exact natDigitsBE_all_digit fp c h

theorem digit_ne (c d : Char) (h : c.isDigit = true) (hd : d.isDigit = false) :
    c ≠ d := by
  intro heq
  subst heq
  rw [h] at hd
  cases hd

theorem digit_not_ws (c : Char) (h : c.isDigit = true) : isJsonWs c = false := by
  cases hws : isJsonWs c
  · rfl
  · exfalso
    simp only [isJsonWs, Bool.or_eq_true, beq_iff_eq] at hws
    rcases hws with ((h1 | h1) | h1) | h1 <;> subst h1 <;> simp at h

theorem skipWs_ws_append (w s : PyStr) (h : allWs w = true) :
    skipWs (w ++ s) = skipWs s := by
  induction w with
  | nil => rfl
  | cons c t ih =>
    simp only [allWs, List.all_cons, Bool.and_eq_true] at h
    rw [List.cons_append, skipWs, List.dropWhile_cons, h.1]
    exact ih (by simp [allWs, h.2])

theorem skipWs_cons_neg (c : Char) (s : PyStr) (h : isJsonWs c = false) :
    skipWs (c :: s) = c :: s := by
  rw [skipWs, List.dropWhile_cons, h]
  simp

theorem skipWs_ws_head (w s : PyStr) (c : Char) (hw : allWs w = true)
    (hc : isJsonWs c = false) : skipWs (w ++ c :: s) = c :: s := by
  rw [skipWs_ws_append w _ hw, skipWs_cons_neg c s hc]

theorem takeWhile_all_append (p : Char → Bool) (l1 l2 : PyStr)
    (h1 : ∀ c ∈ l1, p c = true) (h2 : headNotB p l2 = true) :
    (l1 ++ l2).takeWhile p = l1 := by
  induction l1 with
  | nil =>
    match l2 with
    | [] => rfl
    | c :: r =>
      simp only [headNotB, Bool.not_eq_true'] at h2
      simp [List.takeWhile_cons, h2]
  | cons c t ih =>
    rw [List.cons_append, List.takeWhile_cons, h1 c (by simp)]
    rw [ih (fun x hx => h1 x (by simp [hx]))]
    simp

theorem readLit_rt (c : Char) (lit : PyStr) (w rest : PyStr)
    (hw : allWs w = true) (hc : isJsonWs c = false) :
    readLit (c :: lit) (w ++ (c :: lit) ++ rest) = some rest := by
  unfold readLit
  rw [show w ++ (c :: lit) ++ rest = w ++ c :: (lit ++ rest) by simp]
  rw [skipWs_ws_head _ _ _ hw hc]
  rw [show c :: (lit ++ rest) = (c :: lit) ++ rest from rfl]
  rw [if_pos (List.isPrefixOf_iff_prefix.mpr ⟨rest, rfl⟩)]
  rw [List.drop_left]

theorem strOKb_mem (s : PyStr) (hs : strOKb s = true) (c : Char) (hc : c ∈ s) :
    charOKb c = true := by
  rw [strOKb, List.all_eq_true] at hs
  exact hs c hc

theorem charOKb_ne_quote (c : Char) (h : charOKb c = true) : (c != '"') = true := by
  simp only [charOKb, Bool.and_eq_true] at h
  exact h.1.2

theorem readStr_rt (s w rest : PyStr) (hs : strOKb s = true)
    (hw : allWs w = true) :
    readStr (w ++ printStr s ++ rest) = some (s, rest) := by
  unfold readStr printStr
  rw [show w ++ ('"' :: s ++ ['"']) ++ rest = w ++ '"' :: (s ++ '"' :: rest) by
    simp]
  rw [skipWs_ws_head _ _ _ hw (by decide)]
  have htw : (s ++ '"' :: rest).takeWhile (fun c => c != '"') = s :=
    takeWhile_all_append _ _ _
      (fun c hc => charOKb_ne_quote c (strOKb_mem s hs c hc))
      (by simp [headNotB])
  rw [show ('"' :: (s ++ '"' :: rest)).take 1 = ['"'] from rfl, if_pos rfl]
  rw [show ('"' :: (s ++ '"' :: rest)).drop 1 = s ++ '"' :: rest from rfl]
  rw [htw]
  rw [show s ++ '"' :: rest = s ++ ('"' :: rest) from rfl, List.drop_left]
  rfl

theorem readNatNum_rt (n : Nat) (rest : PyStr)
    (hb : headNotB Char.isDigit rest = true) :
    readNatNum (printNat n ++ rest) = some (n, rest) := by
  unfold readNatNum
  rw [takeWhile_all_append Char.isDigit _ _ (printNat_all_digit n) hb]
  rw [if_neg (printNat_ne_nil n), List.drop_left, valNat_printNat]

theorem numBreak_headNot (rest : PyStr) (h : numBreak rest = true) :
    headNotB Char.isDigit rest = true := by
  match rest with
  | [] => rfl
  | c :: r =>
    simp only [numBreak, Bool.and_eq_true] at h
    simp [headNotB, h.1]

theorem numBreak_take_ne_dot (rest : PyStr) (h : numBreak rest = true) :
    rest.take 1 ≠ ['.'] := by
  match rest with
  | [] => simp
  | c :: r =>
    simp only [numBreak, Bool.and_eq_true, Bool.not_eq_true', beq_eq_false_iff_ne,
      ne_eq] at h
    rw [show (c :: r).take 1 = [c] from rfl]
    intro hc
    exact h.2 (by injection hc)

theorem printNat_head_digit (n : Nat) :
    ∃ c cs, printNat n = c :: cs ∧ c.isDigit = true := by
  match hpn : printNat n with
  | [] => exact absurd hpn (printNat_ne_nil n)
  | c :: cs =>
    exact ⟨c, cs, rfl, printNat_all_digit n c (by rw [hpn]; simp)⟩

theorem readInt_rt (n : Int) (w rest : PyStr) (hw : allWs w = true)
    (hb : headNotB Char.isDigit rest = true) :
    readInt (w ++ printInt n ++ rest) = some (n, rest) := by
  obtain ⟨c, cs, hpn, hdig⟩ := printNat_head_digit n.natAbs
  unfold readInt printInt
  by_cases hneg : n < 0
  · rw [if_pos hneg]
    rw [show w ++ ('-' :: printNat n.natAbs) ++ rest =
      w ++ '-' :: (printNat n.natAbs ++ rest) by simp]
    rw [skipWs_ws_head _ _ _ hw (by decide)]
    rw [show ('-' :: (printNat n.natAbs ++ rest)).take 1 = ['-'] from rfl]
    rw [if_pos rfl]
    rw [show ('-' :: (printNat n.natAbs ++ rest)).drop 1 =
      printNat n.natAbs ++ rest from rfl]
    rw [readNatNum_rt _ _ hb]
    have h1 : -(((n.natAbs : Nat)) : Int) = n := by omega
    show some (-(((n.natAbs : Nat)) : Int), rest) = some (n, rest)
    rw [h1]
  · rw [if_neg hneg]
    rw [hpn]
    rw [show w ++ (c :: cs) ++ rest = w ++ c :: (cs ++ rest) by simp]
    rw [skipWs_ws_head _ _ _ hw (digit_not_ws c hdig)]
    rw [show (c :: (cs ++ rest)).take 1 = [c] from rfl]
    rw [if_neg (by
      intro hcl
      have : c = '-' := by injection hcl
      exact digit_ne c '-' hdig (by decide) this)]
    rw [show c :: (cs ++ rest) = (c :: cs) ++ rest from rfl, ← hpn]
    rw [readNatNum_rt _ _ hb]
    have h1 : (((n.natAbs : Nat)) : Int) = n := by omega
    show some ((((n.natAbs : Nat)) : Int), rest) = some (n, rest)
    rw [h1]

theorem decExpFind_dvd (d e0 : Nat) (h : decExpFind d = some e0) : d ∣ 10 ^ e0 := by
  have := List.find?_some h
  simpa using this

theorem printFloat_eq (q : ℚ) (fs : PyStr) (hp : printFloat q = some fs) :
    ∃ e0, decExpFind q.den = some e0 ∧
      fs = (if q.num < 0 then ['-'] else []) ++
        printNat ((q.num.natAbs * (10 ^ max e0 1 / q.den)) / 10 ^ max e0 1) ++
        '.' :: fracDigits (max e0 1)
          ((q.num.natAbs * (10 ^ max e0 1 / q.den)) % 10 ^ max e0 1) := by
  unfold printFloat at hp
  cases hfind : decExpFind q.den with
  | none => rw [hfind] at hp; cases hp
  | some e0 =>
    rw [hfind] at hp
    simp only [Option.map_some'] at hp
    injection hp with hp
    exact ⟨e0, rfl, hp.symm⟩

theorem decSigned_printFloat (q : ℚ) (e : Nat) (he : 1 ≤ e)
    (hd : q.den ∣ 10 ^ e) (neg : Bool) (hneg : neg = decide (q.num < 0)) :
    decSigned neg ((q.num.natAbs * (10 ^ e / q.den)) / 10 ^ e)
      (fracDigits e ((q.num.natAbs * (10 ^ e / q.den)) % 10 ^ e)) = q := by
  set n := q.num.natAbs * (10 ^ e / q.den) with hn
  have hpow0 : (0 : Nat) < 10 ^ e := Nat.pos_pow_of_pos e (by norm_num)
  have hfp : n % 10 ^ e < 10 ^ e := Nat.mod_lt _ hpow0
  have hlen : (fracDigits e (n % 10 ^ e)).length = e := fracDigits_length _ _ hfp
  have hval : valNat (fracDigits e (n % 10 ^ e)) = n % 10 ^ e := fracDigits_val _ _
  have hden0 : (q.den : ℚ) ≠ 0 := by
    exact_mod_cast q.den_nz
  have hpowQ : ((10 : ℚ) ^ e) ≠ 0 := by positivity
  have hmul : n * q.den = q.num.natAbs * 10 ^ e := by
    rw [hn, Nat.mul_assoc, Nat.div_mul_cancel hd]
  have habs : ((n : Nat) : ℚ) / 10 ^ e = (q.num.natAbs : ℚ) / q.den := by
    rw [div_eq_div_iff hpowQ hden0]
    have : ((n * q.den : Nat) : ℚ) = ((q.num.natAbs * 10 ^ e : Nat) : ℚ) := by
      exact_mod_cast congrArg (fun m : Nat => (m : ℚ)) hmul
    push_cast at this
    linarith
  have hsum : ((n / 10 ^ e : Nat) : ℚ) + ((n % 10 ^ e : Nat) : ℚ) / 10 ^ e =
      ((n : Nat) : ℚ) / 10 ^ e := by
    have hN : 10 ^ e * (n / 10 ^ e) + n % 10 ^ e = n := Nat.div_add_mod n (10 ^ e)
    have hNQ : ((10 ^ e * (n / 10 ^ e) + n % 10 ^ e : Nat) : ℚ) = ((n : Nat) : ℚ) := by
      exact_mod_cast congrArg (fun m : Nat => (m : ℚ)) hN
    push_cast at hNQ
    field_simp
    linarith
  unfold decSigned
  rw [hlen, hval, hsum, habs]
  by_cases hq : q.num < 0
  · rw [hneg, if_pos (by simpa using hq)]
    have h1 : ((q.num.natAbs : Nat) : ℚ) = -((q.num : ℤ) : ℚ) := by
      rw [Int.cast_natAbs, abs_of_neg hq, Int.cast_neg]
    rw [h1, neg_div, neg_neg, Rat.num_div_den]
  · rw [hneg, if_neg (by simpa using hq)]
    have h1 : ((q.num.natAbs : Nat) : ℚ) = ((q.num : ℤ) : ℚ) := by
      rw [Int.cast_natAbs, abs_of_nonneg (le_of_not_lt hq)]
    rw [h1, Rat.num_div_den]

theorem readFrac_rt (neg : Bool) (ip e fp : Nat) (hfp : fp < 10 ^ e)
    (he : 1 ≤ e) (rest : PyStr) (hb : numBreak rest = true) :
    readFrac neg ip (fracDigits e fp ++ rest) =
      some (decSigned neg ip (fracDigits e fp), rest) := by
  unfold readFrac
  have htw : (fracDigits e fp ++ rest).takeWhile Char.isDigit = fracDigits e fp :=
    takeWhile_all_append _ _ _ (fracDigits_all_digit e fp) (numBreak_headNot _ hb)
  rw [htw]
  rw [if_neg (by
    intro h0
    have hl := fracDigits_length e fp hfp
    rw [h0] at hl
    simp at hl
    omega)]
  rw [List.drop_left]

theorem readFloatBody_rt (neg : Bool) (ip e fp : Nat) (hfp : fp < 10 ^ e)
    (he : 1 ≤ e) (rest : PyStr) (hb : numBreak rest = true) :
    readFloatBody neg (printNat ip ++ '.' :: (fracDigits e fp ++ rest)) =
      some (decSigned neg ip (fracDigits e fp), rest) := by
  unfold readFloatBody
  rw [readNatNum_rt ip ('.' :: (fracDigits e fp ++ rest)) (by rfl)]
  show (if List.take 1 ('.' :: (fracDigits e fp ++ rest)) = ['.'] then
      readFrac neg ip (List.drop 1 ('.' :: (fracDigits e fp ++ rest)))
    else none) = some (decSigned neg ip (fracDigits e fp), rest)
  rw [show List.take 1 ('.' :: (fracDigits e fp ++ rest)) = ['.'] from rfl]
  rw [if_pos rfl]
  rw [show List.drop 1 ('.' :: (fracDigits e fp ++ rest)) =
    fracDigits e fp ++ rest from rfl]
  exact readFrac_rt neg ip e fp hfp he rest hb

theorem readFloat_rt (q : ℚ) (fs : PyStr) (hp : printFloat q = some fs)
    (w rest : PyStr) (hw : allWs w = true) (hb : numBreak rest = true) :
    readFloat (w ++ fs ++ rest) = some (q, rest) := by
  obtain ⟨e0, hfind, hfs⟩ := printFloat_eq q fs hp
  have hd : q.den ∣ 10 ^ max e0 1 :=
    dvd_trans (decExpFind_dvd _ _ hfind) (pow_dvd_pow 10 (le_max_left e0 1))
  have he : 1 ≤ max e0 1 := le_max_right e0 1
  have hfp : (q.num.natAbs * (10 ^ max e0 1 / q.den)) % 10 ^ max e0 1
      < 10 ^ max e0 1 := Nat.mod_lt _ (Nat.pos_pow_of_pos _ (by norm_num))
  subst hfs
  unfold readFloat
  by_cases hneg : q.num < 0
  · rw [if_pos hneg]
    rw [show w ++ (['-'] ++
        printNat ((q.num.natAbs * (10 ^ max e0 1 / q.den)) / 10 ^ max e0 1) ++
        '.' :: fracDigits (max e0 1)
          ((q.num.natAbs * (10 ^ max e0 1 / q.den)) % 10 ^ max e0 1)) ++ rest =
      w ++ '-' :: (printNat ((q.num.natAbs * (10 ^ max e0 1 / q.den)) / 10 ^ max e0 1) ++
        '.' :: (fracDigits (max e0 1)
          ((q.num.natAbs * (10 ^ max e0 1 / q.den)) % 10 ^ max e0 1) ++ rest)) by simp]
    rw [skipWs_ws_head _ _ _ hw (by decide)]
    rw [show ('-' :: (printNat ((q.num.natAbs * (10 ^ max e0 1 / q.den)) / 10 ^ max e0 1) ++
        '.' :: (fracDigits (max e0 1)
          ((q.num.natAbs * (10 ^ max e0 1 / q.den)) % 10 ^ max e0 1) ++ rest))).take 1 =
      ['-'] from rfl]
    rw [if_pos rfl]
    rw [show ('-' :: (printNat ((q.num.natAbs * (10 ^ max e0 1 / q.den)) / 10 ^ max e0 1) ++
        '.' :: (fracDigits (max e0 1)
          ((q.num.natAbs * (10 ^ max e0 1 / q.den)) % 10 ^ max e0 1) ++ rest))).drop 1 =
      printNat ((q.num.natAbs * (10 ^ max e0 1 / q.den)) / 10 ^ max e0 1) ++
        '.' :: (fracDigits (max e0 1)
          ((q.num.natAbs * (10 ^ max e0 1 / q.den)) % 10 ^ max e0 1) ++ rest) from rfl]
    rw [readFloatBody_rt _ _ _ _ hfp he rest hb]
    rw [decSigned_printFloat q _ he hd true (by simp [hneg])]
  · rw [if_neg hneg]
    obtain ⟨c, cs, hpn, hdig⟩ :=
      printNat_head_digit ((q.num.natAbs * (10 ^ max e0 1 / q.den)) / 10 ^ max e0 1)
    rw [hpn]
    rw [show w ++ ([] ++ (c :: cs) ++
        '.' :: fracDigits (max e0 1)
          ((q.num.natAbs * (10 ^ max e0 1 / q.den)) % 10 ^ max e0 1)) ++ rest =
      w ++ c :: (cs ++
        '.' :: (fracDigits (max e0 1)
          ((q.num.natAbs * (10 ^ max e0 1 / q.den)) % 10 ^ max e0 1) ++ rest)) by simp]
    rw [skipWs_ws_head _ _ _ hw (digit_not_ws c hdig)]
    rw [show (c :: (cs ++
        '.' :: (fracDigits (max e0 1)
          ((q.num.natAbs * (10 ^ max e0 1 / q.den)) % 10 ^ max e0 1) ++ rest))).take 1 =
      [c] from rfl]
    rw [if_neg (by
      intro hcl
      have : c = '-' := by injection hcl
      exact digit_ne c '-' hdig (by decide) this)]
    rw [show c :: (cs ++
        '.' :: (fracDigits (max e0 1)
          ((q.num.natAbs * (10 ^ max e0 1 / q.den)) % 10 ^ max e0 1) ++ rest)) =
      (c :: cs) ++
        '.' :: (fracDigits (max e0 1)
          ((q.num.natAbs * (10 ^ max e0 1 / q.den)) % 10 ^ max e0 1) ++ rest) from rfl,
      ← hpn]
    rw [readFloatBody_rt _ _ _ _ hfp he rest hb]
    rw [decSigned_printFloat q _ he hd false (by simp [hneg])]

theorem readFloat_int_none (n : Int) (w rest : PyStr) (hw : allWs w = true)
    (hb : numBreak rest = true) :
    readFloat (w ++ printInt n ++ rest) = none := by
  obtain ⟨c, cs, hpn, hdig⟩ := printNat_head_digit n.natAbs
  unfold readFloat printInt
  by_cases hneg : n < 0
  · rw [if_pos hneg]
    rw [show w ++ ('-' :: printNat n.natAbs) ++ rest =
      w ++ '-' :: (printNat n.natAbs ++ rest) by simp]
    rw [skipWs_ws_head _ _ _ hw (by decide)]
    rw [show List.take 1 ('-' :: (printNat n.natAbs ++ rest)) = ['-'] from rfl]
    rw [if_pos rfl]
    rw [show List.drop 1 ('-' :: (printNat n.natAbs ++ rest)) =
      printNat n.natAbs ++ rest from rfl]
    unfold readFloatBody
    rw [readNatNum_rt _ _ (numBreak_headNot _ hb)]
    show (if List.take 1 rest = ['.'] then readFrac true n.natAbs (List.drop 1 rest)
      else none) = none
    rw [if_neg (numBreak_take_ne_dot rest hb)]
  · rw [if_neg hneg, hpn]
    rw [show w ++ (c :: cs) ++ rest = w ++ c :: (cs ++ rest) by simp]
    rw [skipWs_ws_head _ _ _ hw (digit_not_ws c hdig)]
    rw [show List.take 1 (c :: (cs ++ rest)) = [c] from rfl]
    rw [if_neg (by
      intro hcl
      have : c = '-' := by injection hcl
      exact digit_ne c '-' hdig (by decide) this)]
    rw [show c :: (cs ++ rest) = (c :: cs) ++ rest from rfl, ← hpn]
    unfold readFloatBody
    rw [readNatNum_rt _ _ (numBreak_headNot _ hb)]
    show (if List.take 1 rest = ['.'] then readFrac false n.natAbs (List.drop 1 rest)
      else none) = none
    rw [if_neg (numBreak_take_ne_dot rest hb)]

theorem readNumFVal_int_rt (n : Int) (w rest : PyStr) (hw : allWs w = true)
    (hb : numBreak rest = true) :
    readNumFVal (w ++ printInt n ++ rest) = some (.fint n, rest) := by
  unfold readNumFVal
  rw [readFloat_int_none n w rest hw hb, readInt_rt n w rest hw (numBreak_headNot _ hb)]
  rfl

theorem readNumFVal_float_rt (q : ℚ) (fs : PyStr) (hp : printFloat q = some fs)
    (w rest : PyStr) (hw : allWs w = true) (hb : numBreak rest = true) :
    readNumFVal (w ++ fs ++ rest) = some (.ffloat q, rest) := by
  unfold readNumFVal
  rw [readFloat_rt q fs hp w rest hw hb]

theorem readLit_ws (c : Char) (w x : PyStr) (hw : allWs w = true)
    (hc : isJsonWs c = false) : readLit [c] (w ++ c :: x) = some x := by
  have := readLit_rt c [] w x hw hc
  simpa using this

theorem readLit_cons (c : Char) (x : PyStr) (hc : isJsonWs c = false) :
    readLit [c] (c :: x) = some x := by
  have := readLit_rt c [] [] x rfl hc
  simpa using this

theorem readKey_rt (k v rest w : PyStr) (hk : strOKb k = true)
    (hw : allWs w = true) :
    readKey k (w ++ printPairKV k v ++ rest) = some (' ' :: (v ++ rest)) := by
  unfold readKey printPairKV
  rw [show w ++ (printStr k ++ ':' :: ' ' :: v) ++ rest =
    w ++ printStr k ++ (':' :: ' ' :: (v ++ rest)) by simp]
  rw [readStr_rt k w (':' :: ' ' :: (v ++ rest)) hk hw]
  show (if k = k then readLit [':'] (':' :: ' ' :: (v ++ rest)) else none) =
    some (' ' :: (v ++ rest))
  rw [if_pos rfl, readLit_cons ':' (' ' :: (v ++ rest)) (by decide)]

theorem readIntField_rt (k : PyStr) (n : Int) (w rest : PyStr)
    (hk : strOKb k = true) (hw : allWs w = true) (hb : numBreak rest = true) :
    readIntField k (w ++ printPairKV k (printInt n) ++ rest) = some (n, rest) := by
  unfold readIntField
  rw [readKey_rt k (printInt n) rest w hk hw]
  show readInt (' ' :: (printInt n ++ rest)) = some (n, rest)
  have := readInt_rt n [' '] rest rfl (numBreak_headNot _ hb)
  simpa using this

theorem readStrField_rt (k s : PyStr) (w rest : PyStr)
    (hk : strOKb k = true) (hs : strOKb s = true) (hw : allWs w = true) :
    readStrField k (w ++ printPairKV k (printStr s) ++ rest) = some (s, rest) := by
  unfold readStrField
  rw [readKey_rt k (printStr s) rest w hk hw]
  show readStr (' ' :: (printStr s ++ rest)) = some (s, rest)
  have := readStr_rt s [' '] rest hs rfl
  simpa using this

theorem readFloatField_rt (k : PyStr) (q : ℚ) (fs : PyStr)
    (hp : printFloat q = some fs) (w rest : PyStr)
    (hk : strOKb k = true) (hw : allWs w = true) (hb : numBreak rest = true) :
    readFloatField k (w ++ printPairKV k fs ++ rest) = some (q, rest) := by
  unfold readFloatField
  rw [readKey_rt k fs rest w hk hw]
  show readFloat (' ' :: (fs ++ rest)) = some (q, rest)
  have := readFloat_rt q fs hp [' '] rest rfl hb
  simpa using this

theorem allWs_nl_ind (k : Nat) : allWs ('\n' :: indStr k) = true := by
  simp only [allWs, indStr, List.all_cons, Bool.and_eq_true]
  refine ⟨by decide, ?_⟩
  rw [List.all_eq_true]
  intro c hc
  rw [List.eq_of_mem_replicate hc]
  decide

theorem optBind_some {α β : Type} (a : α) (f : α → Option β) :
    (some a >>= f) = f a := rfl

theorem readAtomNames_rt (nm rn : PyStr) (ch : Char) (w1 w2 w3 rest : PyStr)
    (hnm : strOKb nm = true) (hrn : strOKb rn = true) (hch : charOKb ch = true)
    (h1 : allWs w1 = true) (h2 : allWs w2 = true) (h3 : allWs w3 = true) :
    readAtomNames (w1 ++ printPairKV kname (printStr nm) ++
      (',' :: (w2 ++ printPairKV kresName (printStr rn) ++
        (',' :: (w3 ++ printPairKV kchainID (printStr [ch]) ++ rest))))) =
      some ((nm, rn, ch), rest) := by
  unfold readAtomNames
  rw [readStrField_rt kname nm w1 _ (by decide) hnm h1]
  simp only [optBind_some]
  rw [readLit_cons ',' _ (by decide)]
  simp only [optBind_some]
  rw [readStrField_rt kresName rn w2 _ (by decide) hrn h2]
  simp only [optBind_some]
  rw [readLit_cons ',' _ (by decide)]
  simp only [optBind_some]
  rw [readStrField_rt kchainID [ch] w3 _ (by decide) (by simp [strOKb, hch]) h3]
  simp only [optBind_some]

theorem readAtomCoords_rt (x y z : ℚ) (sx sy sz : PyStr)
    (hx : printFloat x = some sx) (hy : printFloat y = some sy)
    (hz : printFloat z = some sz) (w1 w2 w3 rest : PyStr)
    (h1 : allWs w1 = true) (h2 : allWs w2 = true) (h3 : allWs w3 = true)
    (hb : numBreak rest = true) :
    readAtomCoords (w1 ++ printPairKV kxKey sx ++
      (',' :: (w2 ++ printPairKV kyKey sy ++
        (',' :: (w3 ++ printPairKV kzKey sz ++ rest))))) =
      some ((x, y, z), rest) := by
  unfold readAtomCoords
  rw [readFloatField_rt kxKey x sx hx w1 _ (by decide) h1 (by rfl)]
  simp only [optBind_some]
  rw [readLit_cons ',' _ (by decide)]
  simp only [optBind_some]
  rw [readFloatField_rt kyKey y sy hy w2 _ (by decide) h2 (by rfl)]
  simp only [optBind_some]
  rw [readLit_cons ',' _ (by decide)]
  simp only [optBind_some]
  rw [readFloatField_rt kzKey z sz hz w3 _ (by decide) h3 hb]
  simp only [optBind_some]

theorem printAtom_shape (lvl : Nat) (a : AtomRecord) (sx sy sz : PyStr)
    (hx : printFloat a.x = some sx) (hy : printFloat a.y = some sy)
    (hz : printFloat a.z = some sz) :
    printAtom lvl a = some ('\x7b' ::
      (('\n' :: indStr (lvl + 1)) ++ printPairKV kserial (printInt a.serial) ++
      (',' :: (('\n' :: indStr (lvl + 1)) ++ printPairKV kname (printStr a.name) ++
      (',' :: (('\n' :: indStr (lvl + 1)) ++ printPairKV kresName (printStr a.resName) ++
      (',' :: (('\n' :: indStr (lvl + 1)) ++ printPairKV kchainID (printStr [a.chainID]) ++
      (',' :: (('\n' :: indStr (lvl + 1)) ++ printPairKV kresSeq (printInt a.resSeq) ++
      (',' :: (('\n' :: indStr (lvl + 1)) ++ printPairKV kxKey sx ++
      (',' :: (('\n' :: indStr (lvl + 1)) ++ printPairKV kyKey sy ++
      (',' :: (('\n' :: indStr (lvl + 1)) ++ printPairKV kzKey sz ++
      ('\n' :: (indStr lvl ++ ['\x7d'])))))))))))))))))) := by
  unfold printAtom
  rw [hx, hy, hz]
  simp [joinContainer, joinItems]

theorem readAtomObj_rt (a : AtomRecord) (lvl : Nat) (pa : PyStr)
    (hp : printAtom lvl a = some pa)
    (hOKn : strOKb a.name = true) (hOKr : strOKb a.resName = true)
    (hOKc : charOKb a.chainID = true)
    (w rest : PyStr) (hw : allWs w = true) :
    readAtomObj (w ++ pa ++ rest) = some (a, rest) := by
  have hsx : ∃ sx, printFloat a.x = some sx := by
    unfold printAtom at hp
    cases hfx : printFloat a.x with
    | none => rw [hfx] at hp; cases hp
    | some v => exact ⟨v, rfl⟩
  obtain ⟨sx, hx⟩ := hsx
  have hsy : ∃ sy, printFloat a.y = some sy := by
    unfold printAtom at hp
    rw [hx] at hp
    cases hfy : printFloat a.y with
    | none => rw [hfy] at hp; cases hp
    | some v => exact ⟨v, rfl⟩
  obtain ⟨sy, hy⟩ := hsy
  have hsz : ∃ sz, printFloat a.z = some sz := by
    unfold printAtom at hp
    rw [hx, hy] at hp
    cases hfz : printFloat a.z with
    | none => rw [hfz] at hp; cases hp
    | some v => exact ⟨v, rfl⟩
  obtain ⟨sz, hz⟩ := hsz
  have hshape := printAtom_shape lvl a sx sy sz hx hy hz
  rw [hp] at hshape
  injection hshape with hpa
  subst hpa
  unfold readAtomObj
  rw [show w ++ ('\x7b' ::
      (('\n' :: indStr (lvl + 1)) ++ printPairKV kserial (printInt a.serial) ++
      (',' :: (('\n' :: indStr (lvl + 1)) ++ printPairKV kname (printStr a.name) ++
      (',' :: (('\n' :: indStr (lvl + 1)) ++ printPairKV kresName (printStr a.resName) ++
      (',' :: (('\n' :: indStr (lvl + 1)) ++ printPairKV kchainID (printStr [a.chainID]) ++
      (',' :: (('\n' :: indStr (lvl + 1)) ++ printPairKV kresSeq (printInt a.resSeq) ++
      (',' :: (('\n' :: indStr (lvl + 1)) ++ printPairKV kxKey sx ++
      (',' :: (('\n' :: indStr (lvl + 1)) ++ printPairKV kyKey sy ++
      (',' :: (('\n' :: indStr (lvl + 1)) ++ printPairKV kzKey sz ++
      ('\n' :: (indStr lvl ++ ['\x7d'])))))))))))))))))) ++ rest =
    w ++ '\x7b' ::
      (('\n' :: indStr (lvl + 1)) ++ printPairKV kserial (printInt a.serial) ++
      (',' :: (('\n' :: indStr (lvl + 1)) ++ printPairKV kname (printStr a.name) ++
      (',' :: (('\n' :: indStr (lvl + 1)) ++ printPairKV kresName (printStr a.resName) ++
      (',' :: (('\n' :: indStr (lvl + 1)) ++ printPairKV kchainID (printStr [a.chainID]) ++
      (',' :: (('\n' :: indStr (lvl + 1)) ++ printPairKV kresSeq (printInt a.resSeq) ++
      (',' :: (('\n' :: indStr (lvl + 1)) ++ printPairKV kxKey sx ++
      (',' :: (('\n' :: indStr (lvl + 1)) ++ printPairKV kyKey sy ++
      (',' :: (('\n' :: indStr (lvl + 1)) ++ printPairKV kzKey sz ++
      (('\n' :: indStr lvl) ++ '\x7d' :: rest))))))))))))))))
    by simp]
  rw [readLit_ws '\x7b' w _ hw (by decide)]
  simp only [optBind_some]
  rw [readIntField_rt kserial a.serial ('\n' :: indStr (lvl + 1)) _
    (by decide) (allWs_nl_ind _) (by rfl)]
  simp only [optBind_some]
  rw [readLit_cons ',' _ (by decide)]
  simp only [optBind_some]
  rw [readAtomNames_rt a.name a.resName a.chainID ('\n' :: indStr (lvl + 1))
    ('\n' :: indStr (lvl + 1)) ('\n' :: indStr (lvl + 1)) _
    hOKn hOKr hOKc (allWs_nl_ind _) (allWs_nl_ind _) (allWs_nl_ind _)]
  simp only [optBind_some]
  rw [readLit_cons ',' _ (by decide)]
  simp only [optBind_some]
  rw [readIntField_rt kresSeq a.resSeq ('\n' :: indStr (lvl + 1)) _
    (by decide) (allWs_nl_ind _) (by rfl)]
  simp only [optBind_some]
  rw [readLit_cons ',' _ (by decide)]
  simp only [optBind_some]
  rw [readAtomCoords_rt a.x a.y a.z sx sy sz hx hy hz ('\n' :: indStr (lvl + 1))
    ('\n' :: indStr (lvl + 1)) ('\n' :: indStr (lvl + 1)) _
    (allWs_nl_ind _) (allWs_nl_ind _) (allWs_nl_ind _) (by rfl)]
  simp only [optBind_some]
  rw [readLit_ws '\x7d' ('\n' :: indStr lvl) rest (allWs_nl_ind _) (by decide)]
  simp only [optBind_some]

theorem listMapM_cons_some {α β : Type} (f : α → Option β) (a : α) (l : List α)
    (bs : List β) (h : listMapM f (a :: l) = some bs) :
    ∃ b bs', f a = some b ∧ listMapM f l = some bs' ∧ bs = b :: bs' := by
  unfold listMapM at h
  cases hfa : f a with
  | none => rw [hfa] at h; cases h
  | some b =>
    rw [hfa, optBind_some] at h
    cases hl : listMapM f l with
    | none => rw [hl] at h; cases h
    | some bs' =>
      rw [hl, optBind_some] at h
      exact ⟨b, bs', rfl, rfl, (Option.some.inj h).symm⟩

theorem listMapM_length {α β : Type} (f : α → Option β) :
    ∀ (l : List α) (bs : List β), listMapM f l = some bs → bs.length = l.length := by
  intro l
  induction l with
  | nil =>
    intro bs h
    unfold listMapM at h
    rw [(Option.some.inj h).symm]
    rfl
  | cons a t ih =>
    intro bs h
    obtain ⟨b, bs', _, hl, rfl⟩ := listMapM_cons_some f a t bs h
    simp [ih bs' hl]

theorem listMapM_isSome {α β : Type} (f : α → Option β) :
    ∀ l : List α, (∀ a ∈ l, ∃ b, f a = some b) → ∃ bs, listMapM f l = some bs := by
  intro l
  induction l with
  | nil => intro _; exact ⟨[], rfl⟩
  | cons a t ih =>
    intro h
    obtain ⟨b, hb⟩ := h a (by simp)
    obtain ⟨bs, hbs⟩ := ih (fun x hx => h x (by simp [hx]))
    refine ⟨b :: bs, ?_⟩
    unfold listMapM
    rw [hb, optBind_some, hbs, optBind_some]

theorem joinItems_length_ge (lvl : Nat) (hlvl : 1 ≤ lvl) :
    ∀ items : List PyStr, items.length ≤ (joinItems lvl items).length := by
  intro items
  induction items with
  | nil => simp [joinItems]
  | cons x xs ih =>
    cases xs with
    | nil =>
      simp only [joinItems, List.length_cons, List.length_nil, List.length_append,
        indStr, List.length_replicate]
      omega
    | cons y ys =>
      rw [show joinItems lvl (x :: y :: ys) =
        indStr lvl ++ x ++ ',' :: '\n' :: joinItems lvl (y :: ys) from rfl]
      simp only [List.length_cons, List.length_append, indStr,
        List.length_replicate] at *
      omega

theorem printFloat_isSome (q : ℚ) (h : floatOKb q = true) :
    ∃ fs, printFloat q = some fs := by
  unfold floatOKb at h
  cases hd : decExpFind q.den with
  | none => rw [hd] at h; cases h
  | some e0 => exact ⟨_, by unfold printFloat; rw [hd]; rfl⟩

theorem printAtom_isSome (lvl : Nat) (a : AtomRecord) (h : atomOKb a = true) :
    ∃ pa, printAtom lvl a = some pa := by
  simp only [atomOKb, Bool.and_eq_true] at h
  obtain ⟨sx, hx⟩ := printFloat_isSome a.x h.1.1.2
  obtain ⟨sy, hy⟩ := printFloat_isSome a.y h.1.2
  obtain ⟨sz, hz⟩ := printFloat_isSome a.z h.2
  exact ⟨_, printAtom_shape lvl a sx sy sz hx hy hz⟩

theorem printFVal_isSome (lvl : Nat) (v : FVal) (h : fvalOKb v = true) :
    ∃ pv, printFVal lvl v = some pv := by
  cases v with
  | fnull => exact ⟨_, rfl⟩
  | fint n => exact ⟨_, rfl⟩
  | ffloat q =>
    obtain ⟨fs, hfs⟩ := printFloat_isSome q (by simpa [fvalOKb] using h)
    exact ⟨fs, by simpa [printFVal] using hfs⟩
  | fstr s => exact ⟨_, rfl⟩
  | fatoms l =>
    simp only [fvalOKb] at h
    rw [List.all_eq_true] at h
    obtain ⟨items, hitems⟩ := listMapM_isSome (printAtom (lvl + 1)) l
      (fun a ha => printAtom_isSome (lvl + 1) a (h a ha))
    exact ⟨_, by simp only [printFVal]; rw [hitems]; rfl⟩

theorem printEntry_isSome (lvl : Nat) (e : Entry) (h : entryOKb e = true) :
    ∃ pe, printEntry lvl e = some pe := by
  simp only [entryOKb] at h
  rw [List.all_eq_true] at h
  obtain ⟨items, hitems⟩ := listMapM_isSome (printPair (lvl + 1)) e (by
    intro p hp
    have := h p hp
    simp only [Bool.and_eq_true] at this
    obtain ⟨pv, hpv⟩ := printFVal_isSome (lvl + 1) p.2 this.2
    exact ⟨_, by unfold printPair; rw [hpv]; rfl⟩)
  exact ⟨_, by unfold printEntry; rw [hitems]; rfl⟩

theorem printAtom_head (lvl : Nat) (a : AtomRecord) (pa : PyStr)
    (hp : printAtom lvl a = some pa) : ∃ t, pa = '\x7b' :: t := by
  unfold printAtom at hp
  cases hfx : printFloat a.x with
  | none => rw [hfx] at hp; cases hp
  | some sx =>
    rw [hfx, optBind_some] at hp
    cases hfy : printFloat a.y with
    | none => rw [hfy] at hp; cases hp
    | some sy =>
      rw [hfy, optBind_some] at hp
      cases hfz : printFloat a.z with
      | none => rw [hfz] at hp; cases hp
      | some sz =>
        rw [hfz, optBind_some] at hp
        exact ⟨_, (Option.some.inj hp).symm⟩

theorem printEntry_head (lvl : Nat) (e : Entry) (pe : PyStr)
    (hp : printEntry lvl e = some pe) : ∃ t, pe = '\x7b' :: t := by
  unfold printEntry at hp
  cases hm : listMapM (printPair (lvl + 1)) e with
  | none => rw [hm] at hp; cases hp
  | some items =>
    rw [hm] at hp
    simp only [Option.map_some'] at hp
    cases items with
    | nil => exact ⟨_, (Option.some.inj hp).symm⟩
    | cons i is => exact ⟨_, (Option.some.inj hp).symm⟩

theorem printInt_head (n : Int) :
    ∃ c t, printInt n = c :: t ∧ (c = '-' ∨ c.isDigit = true) := by
  obtain ⟨c, cs, hpn, hdig⟩ := printNat_head_digit n.natAbs
  unfold printInt
  by_cases hneg : n < 0
  · rw [if_pos hneg]; exact ⟨'-', _, rfl, Or.inl rfl⟩
  · rw [if_neg hneg, hpn]; exact ⟨c, cs, rfl, Or.inr hdig⟩

theorem printFloat_head (q : ℚ) (fs : PyStr) (hp : printFloat q = some fs) :
    ∃ c t, fs = c :: t ∧ (c = '-' ∨ c.isDigit = true) := by
  obtain ⟨e0, _, hfs⟩ := printFloat_eq q fs hp
  obtain ⟨c, cs, hpn, hdig⟩ :=
    printNat_head_digit ((q.num.natAbs * (10 ^ max e0 1 / q.den)) / 10 ^ max e0 1)
  by_cases hneg : q.num < 0
  · rw [if_pos hneg] at hfs
    exact ⟨'-', _, by rw [hfs]; rfl, Or.inl rfl⟩
  · rw [if_neg hneg] at hfs
    rw [hpn] at hfs
    exact ⟨c, _, by rw [hfs]; rfl, Or.inr hdig⟩

theorem allWs_append (w1 w2 : PyStr) (h1 : allWs w1 = true)
    (h2 : allWs w2 = true) : allWs (w1 ++ w2) = true := by
  simp only [allWs, List.all_append, Bool.and_eq_true]
  exact ⟨h1, h2⟩

theorem allWs_indStr (k : Nat) : allWs (indStr k) = true := by
  simp only [allWs, indStr, List.all_eq_true]
  intro c hc
  rw [List.eq_of_mem_replicate hc]
  decide

theorem atomOKb_fields (a : AtomRecord) (h : atomOKb a = true) :
    strOKb a.name = true ∧ strOKb a.resName = true ∧ charOKb a.chainID = true := by
  simp only [atomOKb, Bool.and_eq_true] at h
  exact ⟨h.1.1.1.1.1, h.1.1.1.1.2, h.1.1.1.2⟩

theorem readAtomsAux_rt :
    ∀ (l : List AtomRecord) (f : Nat) (items : List PyStr) (lvl : Nat)
      (w wc rest : PyStr),
      l ≠ [] → listMapM (printAtom lvl) l = some items →
      l.all atomOKb = true → l.length ≤ f →
      allWs w = true → allWs wc = true →
      readAtomsAux f (w ++ joinItems lvl items ++ '\n' :: (wc ++ ']' :: rest)) =
        some (l, rest) := by
  intro l
  induction l with
  | nil => intro f items lvl w wc rest hne; exact absurd rfl hne
  | cons a l' ih =>
    intro f items lvl w wc rest _ hm hOK hf hw hwc
    obtain ⟨pa, items', hpa, hm', rfl⟩ := listMapM_cons_some _ a l' items hm
    simp only [List.all_cons, Bool.and_eq_true] at hOK
    obtain ⟨hOKn, hOKr, hOKc⟩ := atomOKb_fields a hOK.1
    match f, hf with
    | f' + 1, hf =>
      cases l' with
      | nil =>
        have hit : items' = [] := List.length_eq_zero.mp
          (by rw [listMapM_length _ _ _ hm']; rfl)
        subst hit
        rw [show joinItems lvl [pa] = indStr lvl ++ pa from rfl]
        unfold readAtomsAux
        rw [show w ++ (indStr lvl ++ pa) ++ '\n' :: (wc ++ ']' :: rest) =
          (w ++ indStr lvl) ++ pa ++ ('\n' :: (wc ++ ']' :: rest)) by simp]
        rw [readAtomObj_rt a lvl pa hpa hOKn hOKr hOKc (w ++ indStr lvl) _
          (allWs_append _ _ hw (allWs_indStr lvl))]
        simp only [optBind_some]
        rw [show ('\n' :: (wc ++ ']' :: rest)) = ('\n' :: wc) ++ ']' :: rest by simp]
        rw [skipWs_ws_head _ _ _ (by
          simp only [allWs, List.all_cons, Bool.and_eq_true]
          refine ⟨by decide, ?_⟩
          simpa [allWs] using hwc) (by decide)]
        rfl
      | cons b l'' =>
        obtain ⟨i2, is2, rfl⟩ : ∃ i2 is2, items' = i2 :: is2 := by
          cases hit : items' with
          | nil =>
            have := listMapM_length _ _ _ hm'
            rw [hit] at this
            simp at this
          | cons i2 is2 => exact ⟨i2, is2, rfl⟩
        rw [show joinItems lvl (pa :: i2 :: is2) =
          indStr lvl ++ pa ++ ',' :: '\n' :: joinItems lvl (i2 :: is2) from rfl]
        unfold readAtomsAux
        rw [show w ++ (indStr lvl ++ pa ++ ',' :: '\n' :: joinItems lvl (i2 :: is2))
            ++ '\n' :: (wc ++ ']' :: rest) =
          (w ++ indStr lvl) ++ pa ++ (',' :: ('\n' ::
            (joinItems lvl (i2 :: is2) ++ '\n' :: (wc ++ ']' :: rest)))) by simp]
        rw [readAtomObj_rt a lvl pa hpa hOKn hOKr hOKc (w ++ indStr lvl) _
          (allWs_append _ _ hw (allWs_indStr lvl))]
        simp only [optBind_some]
        rw [skipWs_cons_neg ',' _ (by decide)]
        show (do
          let p ← readAtomsAux f' ('\n' ::
            (joinItems lvl (i2 :: is2) ++ '\n' :: (wc ++ ']' :: rest)))
          some (a :: p.1, p.2)) = some (a :: b :: l'', rest)
        rw [show ('\n' :: (joinItems lvl (i2 :: is2) ++ '\n' :: (wc ++ ']' :: rest)))
          = ['\n'] ++ joinItems lvl (i2 :: is2) ++ '\n' :: (wc ++ ']' :: rest) by simp]
        rw [ih f' (i2 :: is2) lvl ['\n'] wc rest (by simp) hm' hOK.2 (by
            have := hf
            simp only [List.length_cons] at this ⊢
            omega) rfl hwc]
        rfl

theorem readAtoms_rt (l : List AtomRecord) (lvl : Nat) (items : List PyStr)
    (hm : listMapM (printAtom (lvl + 1)) l = some items)
    (hOK : l.all atomOKb = true) (w rest : PyStr) (hw : allWs w = true) :
    readAtoms (w ++ joinContainer '[' ']' lvl items ++ rest) = some (l, rest) := by
  cases l with
  | nil =>
    have hit : items = [] := List.length_eq_zero.mp
      (by rw [listMapM_length _ _ _ hm]; rfl)
    subst hit
    unfold readAtoms
    rw [show w ++ joinContainer '[' ']' lvl [] ++ rest = w ++ '[' :: (']' :: rest) by
      simp [joinContainer]]
    rw [readLit_ws '[' w _ hw (by decide)]
    simp only [optBind_some]
    rw [skipWs_cons_neg ']' rest (by decide)]
    rw [show List.take 1 (']' :: rest) = [']'] from rfl]
    rw [if_pos rfl]
    rw [show List.drop 1 (']' :: rest) = rest from rfl]
  | cons a l' =>
    obtain ⟨pa, items', hpa, hm', rfl⟩ := listMapM_cons_some _ a l' items hm
    obtain ⟨t1, rfl⟩ := printAtom_head (lvl + 1) a pa hpa
    have hjoin : ∃ suffix, joinItems (lvl + 1) (('\x7b' :: t1) :: items') =
        indStr (lvl + 1) ++ '\x7b' :: (t1 ++ suffix) := by
      cases items' with
      | nil => exact ⟨[], by simp [joinItems]⟩
      | cons i2 is2 =>
        exact ⟨',' :: '\n' :: joinItems (lvl + 1) (i2 :: is2), by
          rw [show joinItems (lvl + 1) (('\x7b' :: t1) :: i2 :: is2) =
            indStr (lvl + 1) ++ ('\x7b' :: t1) ++
              ',' :: '\n' :: joinItems (lvl + 1) (i2 :: is2) from rfl]
          simp⟩
    obtain ⟨suffix, hsuffix⟩ := hjoin
    rw [show joinContainer '[' ']' lvl (('\x7b' :: t1) :: items') =
      '[' :: '\n' :: (joinItems (lvl + 1) (('\x7b' :: t1) :: items') ++
        '\n' :: (indStr lvl ++ [']'])) from rfl]
    unfold readAtoms
    rw [show w ++ ('[' :: '\n' :: (joinItems (lvl + 1) (('\x7b' :: t1) :: items') ++
        '\n' :: (indStr lvl ++ [']']))) ++ rest =
      w ++ '[' :: ('\n' :: (joinItems (lvl + 1) (('\x7b' :: t1) :: items') ++
        '\n' :: (indStr lvl ++ ']' :: rest))) by simp]
    rw [readLit_ws '[' w _ hw (by decide)]
    simp only [optBind_some]
    have hskip : skipWs ('\n' :: (joinItems (lvl + 1) (('\x7b' :: t1) :: items') ++
        '\n' :: (indStr lvl ++ ']' :: rest))) =
        '\x7b' :: (t1 ++ suffix ++ '\n' :: (indStr lvl ++ ']' :: rest)) := by
      rw [hsuffix]
      rw [show ('\n' :: (indStr (lvl + 1) ++ '\x7b' :: (t1 ++ suffix) ++
          '\n' :: (indStr lvl ++ ']' :: rest))) =
        ('\n' :: indStr (lvl + 1)) ++
          '\x7b' :: (t1 ++ suffix ++ '\n' :: (indStr lvl ++ ']' :: rest)) by simp]
      exact skipWs_ws_head _ _ _ (allWs_nl_ind _) (by decide)
    rw [hskip]
    rw [show List.take 1 ('\x7b' ::
      (t1 ++ suffix ++ '\n' :: (indStr lvl ++ ']' :: rest))) = ['\x7b'] from rfl]
    rw [if_neg (by decide)]
    have hlen : (a :: l').length ≤
        ('\n' :: (joinItems (lvl + 1) (('\x7b' :: t1) :: items') ++
          '\n' :: (indStr lvl ++ ']' :: rest))).length + 1 := by
      have h1 := joinItems_length_ge (lvl + 1) (by omega) (('\x7b' :: t1) :: items')
      have h2 := listMapM_length _ _ _ hm
      simp only [List.length_cons, List.length_append] at h1 h2 ⊢
      omega
    rw [show ('\n' :: (joinItems (lvl + 1) (('\x7b' :: t1) :: items') ++
        '\n' :: (indStr lvl ++ ']' :: rest))) =
      ['\n'] ++ joinItems (lvl + 1) (('\x7b' :: t1) :: items') ++
        '\n' :: (indStr lvl ++ ']' :: rest) by simp]
    rw [readAtomsAux_rt (a :: l') _ (('\x7b' :: t1) :: items') (lvl + 1)
      ['\n'] (indStr lvl) rest (by simp) hm hOK (by
        simpa using hlen) rfl (allWs_indStr lvl)]

theorem readEntryVal_rt (v : FVal) (lvl : Nat) (pv : PyStr)
    (hp : printFVal lvl v = some pv) (hOK : fvalOKb v = true)
    (w rest : PyStr) (hw : allWs w = true) (hb : numBreak rest = true) :
    readEntryVal (w ++ pv ++ rest) = some (v, rest) := by
  cases v with
  | fnull =>
    have hpv : pv = knull := (Option.some.inj hp).symm
    subst hpv
    unfold readEntryVal
    rw [show knull = ['n', 'u', 'l', 'l'] from by decide]
    rw [show w ++ ['n', 'u', 'l', 'l'] ++ rest =
      w ++ 'n' :: (['u', 'l', 'l'] ++ rest) by simp]
    rw [skipWs_ws_head _ _ _ hw (by decide)]
    rw [show List.take 1 ('n' :: (['u', 'l', 'l'] ++ rest)) = ['n'] from rfl]
    rw [if_neg (by decide), if_pos rfl]
    rw [show w ++ 'n' :: (['u', 'l', 'l'] ++ rest) =
      w ++ ['n', 'u', 'l', 'l'] ++ rest by simp]
    rw [show (['n', 'u', 'l', 'l'] : PyStr) = 'n' :: ['u', 'l', 'l'] from rfl]
    rw [readLit_rt 'n' ['u', 'l', 'l'] w rest hw (by decide)]
    rfl
  | fint n =>
    have hpv : pv = printInt n := (Option.some.inj hp).symm
    subst hpv
    obtain ⟨c, t, hct, hc⟩ := printInt_head n
    have hcws : isJsonWs c = false := by
      rcases hc with h | h
      · subst h; decide
      · exact digit_not_ws c h
    unfold readEntryVal
    rw [hct]
    rw [show w ++ (c :: t) ++ rest = w ++ c :: (t ++ rest) by simp]
    rw [skipWs_ws_head _ _ _ hw hcws]
    rw [show List.take 1 (c :: (t ++ rest)) = [c] from rfl]
    rw [if_neg (by
      intro h1
      have hcq : c = '"' := by injection h1
      rcases hc with h | h
      · rw [hcq] at h; cases h
      · exact digit_ne c '"' h (by decide) hcq)]
    rw [if_neg (by
      intro h1
      have hcq : c = 'n' := by injection h1
      rcases hc with h | h
      · rw [hcq] at h; cases h
      · exact digit_ne c 'n' h (by decide) hcq)]
    rw [if_neg (by
      intro h1
      have hcq : c = '[' := by injection h1
      rcases hc with h | h
      · rw [hcq] at h; cases h
      · exact digit_ne c '[' h (by decide) hcq)]
    rw [show w ++ c :: (t ++ rest) = w ++ (c :: t) ++ rest by simp, ← hct]
    exact readNumFVal_int_rt n w rest hw hb
  | ffloat q =>
    have hpq : printFloat q = some pv := hp
    obtain ⟨c, t, hct, hc⟩ := printFloat_head q pv hpq
    subst hct
    have hcws : isJsonWs c = false := by
      rcases hc with h | h
      · subst h; decide
      · exact digit_not_ws c h
    unfold readEntryVal
    rw [show w ++ (c :: t) ++ rest = w ++ c :: (t ++ rest) by simp]
    rw [skipWs_ws_head _ _ _ hw hcws]
    rw [show List.take 1 (c :: (t ++ rest)) = [c] from rfl]
    rw [if_neg (by
      intro h1
      have hcq : c = '"' := by injection h1
      rcases hc with h | h
      · rw [hcq] at h; cases h
      · exact digit_ne c '"' h (by decide) hcq)]
    rw [if_neg (by
      intro h1
      have hcq : c = 'n' := by injection h1
      rcases hc with h | h
      · rw [hcq] at h; cases h
      · exact digit_ne c 'n' h (by decide) hcq)]
    rw [if_neg (by
      intro h1
      have hcq : c = '[' := by injection h1
      rcases hc with h | h
      · rw [hcq] at h; cases h
      · exact digit_ne c '[' h (by decide) hcq)]
    rw [show w ++ c :: (t ++ rest) = w ++ (c :: t) ++ rest by simp]
    exact readNumFVal_float_rt q (c :: t) hpq w rest hw hb
  | fstr s =>
    have hpv : pv = printStr s := (Option.some.inj hp).symm
    subst hpv
    unfold readEntryVal
    rw [show printStr s = '"' :: (s ++ ['"']) from rfl]
    rw [show w ++ ('"' :: (s ++ ['"'])) ++ rest =
      w ++ '"' :: ((s ++ ['"']) ++ rest) by simp]
    rw [skipWs_ws_head _ _ _ hw (by decide)]
    rw [show List.take 1 ('"' :: ((s ++ ['"']) ++ rest)) = ['"'] from rfl]
    rw [if_pos rfl]
    rw [show w ++ '"' :: ((s ++ ['"']) ++ rest) =
      w ++ printStr s ++ rest by simp [printStr]]
    rw [readStr_rt s w rest (by simpa [fvalOKb] using hOK) hw]
    rfl
  | fatoms l =>
    simp only [printFVal] at hp
    cases hm : listMapM (printAtom (lvl + 1)) l with
    | none => rw [hm] at hp; cases hp
    | some items =>
      rw [hm] at hp
      simp only [Option.map_some'] at hp
      have hpv : pv = joinContainer '[' ']' lvl items := (Option.some.inj hp).symm
      subst hpv
      have hhead : ∃ t, joinContainer '[' ']' lvl items = '[' :: t := by
        cases items with
        | nil => exact ⟨_, rfl⟩
        | cons i is => exact ⟨_, rfl⟩
      obtain ⟨t, ht⟩ := hhead
      unfold readEntryVal
      rw [ht]
      rw [show w ++ ('[' :: t) ++ rest = w ++ '[' :: (t ++ rest) by simp]
      rw [skipWs_ws_head _ _ _ hw (by decide)]
      rw [show List.take 1 ('[' :: (t ++ rest)) = ['['] from rfl]
      rw [if_neg (by decide), if_neg (by decide), if_pos rfl]
      rw [show w ++ '[' :: (t ++ rest) = w ++ ('[' :: t) ++ rest by simp, ← ht]
      rw [readAtoms_rt l lvl items hm (by simpa [fvalOKb] using hOK) w rest hw]
      rfl

theorem printPair_inv (lvl : Nat) (p : PyStr × FVal) (it : PyStr)
    (h : printPair lvl p = some it) :
    ∃ pv, printFVal lvl p.2 = some pv ∧ it = printPairKV p.1 pv := by
  unfold printPair at h
  cases hv : printFVal lvl p.2 with
  | none => rw [hv] at h; cases h
  | some pv =>
    rw [hv] at h
    simp only [Option.map_some'] at h
    exact ⟨pv, rfl, (Option.some.inj h).symm⟩

theorem readPairsAux_rt :
    ∀ (e : Entry) (f : Nat) (items : List PyStr) (lvl : Nat) (w wc rest : PyStr),
      e ≠ [] → listMapM (printPair lvl) e = some items →
      entryOKb e = true → e.length ≤ f →
      allWs w = true → allWs wc = true →
      readPairsAux f (w ++ joinItems lvl items ++ '\n' :: (wc ++ '\x7d' :: rest)) =
        some (e, rest) := by
  intro e
  induction e with
  | nil => intro f items lvl w wc rest hne; exact absurd rfl hne
  | cons p e' ih =>
    intro f items lvl w wc rest _ hm hOK hf hw hwc
    obtain ⟨it, items', hit, hm', rfl⟩ := listMapM_cons_some _ p e' items hm
    obtain ⟨pv, hpv, rfl⟩ := printPair_inv lvl p it hit
    simp only [entryOKb, List.all_cons, Bool.and_eq_true] at hOK
    obtain ⟨⟨hkOK, hvOK⟩, heOK⟩ := hOK
    obtain ⟨k, v⟩ := p
    match f, hf with
    | f' + 1, hf =>
      cases e' with
      | nil =>
        have hit0 : items' = [] := List.length_eq_zero.mp
          (by rw [listMapM_length _ _ _ hm']; rfl)
        subst hit0
        rw [show joinItems lvl [printPairKV k pv] = indStr lvl ++ printPairKV k pv
          from rfl]
        unfold readPairsAux
        rw [show w ++ (indStr lvl ++ printPairKV k pv) ++
            '\n' :: (wc ++ '\x7d' :: rest) =
          (w ++ indStr lvl) ++ printPairKV k pv ++
            ('\n' :: (wc ++ '\x7d' :: rest)) by simp]
        rw [show (w ++ indStr lvl) ++ printPairKV k pv ++
            ('\n' :: (wc ++ '\x7d' :: rest)) =
          (w ++ indStr lvl) ++ printStr k ++
            (':' :: ' ' :: (pv ++ ('\n' :: (wc ++ '\x7d' :: rest))))
          by simp [printPairKV]]
        rw [readStr_rt k (w ++ indStr lvl) _ hkOK
          (allWs_append _ _ hw (allWs_indStr lvl))]
        simp only [optBind_some]
        rw [readLit_cons ':' _ (by decide)]
        simp only [optBind_some]
        rw [show (' ' :: (pv ++ ('\n' :: (wc ++ '\x7d' :: rest)))) =
          [' '] ++ pv ++ ('\n' :: (wc ++ '\x7d' :: rest)) by simp]
        rw [readEntryVal_rt v lvl pv hpv hvOK [' '] _ rfl (by rfl)]
        simp only [optBind_some]
        rw [show ('\n' :: (wc ++ '\x7d' :: rest)) = ('\n' :: wc) ++ '\x7d' :: rest
          by simp]
        rw [skipWs_ws_head _ _ _ (by
          simp only [allWs, List.all_cons, Bool.and_eq_true]
          refine ⟨by decide, ?_⟩
          simpa [allWs] using hwc) (by decide)]
        rfl
      | cons p2 e'' =>
        obtain ⟨i2, is2, rfl⟩ : ∃ i2 is2, items' = i2 :: is2 := by
          cases hit2 : items' with
          | nil =>
            have := listMapM_length _ _ _ hm'
            rw [hit2] at this
            simp at this
          | cons i2 is2 => exact ⟨i2, is2, rfl⟩
        rw [show joinItems lvl (printPairKV k pv :: i2 :: is2) =
          indStr lvl ++ printPairKV k pv ++
            ',' :: '\n' :: joinItems lvl (i2 :: is2) from rfl]
        unfold readPairsAux
        rw [show w ++ (indStr lvl ++ printPairKV k pv ++
            ',' :: '\n' :: joinItems lvl (i2 :: is2)) ++
            '\n' :: (wc ++ '\x7d' :: rest) =
          (w ++ indStr lvl) ++ printStr k ++
            (':' :: ' ' :: (pv ++ (',' :: ('\n' ::
              (joinItems lvl (i2 :: is2) ++ '\n' :: (wc ++ '\x7d' :: rest))))))
          by simp [printPairKV]]
        rw [readStr_rt k (w ++ indStr lvl) _ hkOK
          (allWs_append _ _ hw (allWs_indStr lvl))]
        simp only [optBind_some]
        rw [readLit_cons ':' _ (by decide)]
        simp only [optBind_some]
        rw [show (' ' :: (pv ++ (',' :: ('\n' ::
            (joinItems lvl (i2 :: is2) ++ '\n' :: (wc ++ '\x7d' :: rest)))))) =
          [' '] ++ pv ++ (',' :: ('\n' ::
            (joinItems lvl (i2 :: is2) ++ '\n' :: (wc ++ '\x7d' :: rest)))) by simp]
        rw [readEntryVal_rt v lvl pv hpv hvOK [' '] _ rfl (by rfl)]
        simp only [optBind_some]
        rw [skipWs_cons_neg ',' _ (by decide)]
        show (do
          let q ← readPairsAux f' ('\n' ::
            (joinItems lvl (i2 :: is2) ++ '\n' :: (wc ++ '\x7d' :: rest)))
          some ((k, v) :: q.1, q.2)) = some ((k, v) :: p2 :: e'', rest)
        rw [show ('\n' :: (joinItems lvl (i2 :: is2) ++
            '\n' :: (wc ++ '\x7d' :: rest))) =
          ['\n'] ++ joinItems lvl (i2 :: is2) ++
            '\n' :: (wc ++ '\x7d' :: rest) by simp]
        rw [ih f' (i2 :: is2) lvl ['\n'] wc rest (by simp) hm' heOK (by
          have := hf
          simp only [List.length_cons] at this ⊢
          omega) rfl hwc]
        rfl

theorem printEntry_inv (lvl : Nat) (e : Entry) (pe : PyStr)
    (h : printEntry lvl e = some pe) :
    ∃ pits, listMapM (printPair (lvl + 1)) e = some pits ∧
      pe = joinContainer '\x7b' '\x7d' lvl pits := by
  unfold printEntry at h
  cases hm : listMapM (printPair (lvl + 1)) e with
  | none => rw [hm] at h; cases h
  | some pits =>
    rw [hm] at h
    simp only [Option.map_some'] at h
    exact ⟨pits, rfl, (Option.some.inj h).symm⟩

theorem readEntry_rt (e : Entry) (lvl : Nat) (items : List PyStr)
    (hm : listMapM (printPair (lvl + 1)) e = some items)
    (hOK : entryOKb e = true) (w rest : PyStr) (hw : allWs w = true) :
    readEntry (w ++ joinContainer '\x7b' '\x7d' lvl items ++ rest) =
      some (e, rest) := by
  cases e with
  | nil =>
    have hit : items = [] := List.length_eq_zero.mp
      (by rw [listMapM_length _ _ _ hm]; rfl)
    subst hit
    unfold readEntry
    rw [show w ++ joinContainer '\x7b' '\x7d' lvl [] ++ rest =
      w ++ '\x7b' :: ('\x7d' :: rest) by simp [joinContainer]]
    rw [readLit_ws '\x7b' w _ hw (by decide)]
    simp only [optBind_some]
    rw [skipWs_cons_neg '\x7d' rest (by decide)]
    rw [show List.take 1 ('\x7d' :: rest) = ['\x7d'] from rfl]
    rw [if_pos rfl]
    rw [show List.drop 1 ('\x7d' :: rest) = rest from rfl]
  | cons p e' =>
    obtain ⟨it, items', hit, hm', rfl⟩ := listMapM_cons_some _ p e' items hm
    obtain ⟨pv, hpv, rfl⟩ := printPair_inv (lvl + 1) p it hit
    have hitem : printPairKV p.1 pv =
        '"' :: ((p.1 ++ ['"']) ++ ':' :: ' ' :: pv) := rfl
    have hjoin : ∃ suffix, joinItems (lvl + 1) (printPairKV p.1 pv :: items') =
        indStr (lvl + 1) ++ '"' :: ((p.1 ++ ['"']) ++ ':' :: ' ' :: pv ++ suffix) := by
      cases items' with
      | nil => exact ⟨[], by rw [show joinItems (lvl + 1) [printPairKV p.1 pv] =
          indStr (lvl + 1) ++ printPairKV p.1 pv from rfl, hitem]; simp⟩
      | cons i2 is2 =>
        refine ⟨',' :: '\n' :: joinItems (lvl + 1) (i2 :: is2), ?_⟩
        rw [show joinItems (lvl + 1) (printPairKV p.1 pv :: i2 :: is2) =
          indStr (lvl + 1) ++ printPairKV p.1 pv ++
            ',' :: '\n' :: joinItems (lvl + 1) (i2 :: is2) from rfl, hitem]
        simp
    obtain ⟨suffix, hsuffix⟩ := hjoin
    rw [show joinContainer '\x7b' '\x7d' lvl (printPairKV p.1 pv :: items') =
      '\x7b' :: '\n' :: (joinItems (lvl + 1) (printPairKV p.1 pv :: items') ++
        '\n' :: (indStr lvl ++ ['\x7d'])) from rfl]
    unfold readEntry
    rw [show w ++ ('\x7b' :: '\n' ::
        (joinItems (lvl + 1) (printPairKV p.1 pv :: items') ++
          '\n' :: (indStr lvl ++ ['\x7d']))) ++ rest =
      w ++ '\x7b' :: ('\n' ::
        (joinItems (lvl + 1) (printPairKV p.1 pv :: items') ++
          '\n' :: (indStr lvl ++ '\x7d' :: rest))) by simp]
    rw [readLit_ws '\x7b' w _ hw (by decide)]
    simp only [optBind_some]
    have hskip : skipWs ('\n' ::
        (joinItems (lvl + 1) (printPairKV p.1 pv :: items') ++
          '\n' :: (indStr lvl ++ '\x7d' :: rest))) =
        '"' :: (((p.1 ++ ['"']) ++ ':' :: ' ' :: pv ++ suffix) ++
          '\n' :: (indStr lvl ++ '\x7d' :: rest)) := by
      rw [hsuffix]
      rw [show ('\n' :: (indStr (lvl + 1) ++
          '"' :: ((p.1 ++ ['"']) ++ ':' :: ' ' :: pv ++ suffix) ++
          '\n' :: (indStr lvl ++ '\x7d' :: rest))) =
        ('\n' :: indStr (lvl + 1)) ++
          '"' :: (((p.1 ++ ['"']) ++ ':' :: ' ' :: pv ++ suffix) ++
            '\n' :: (indStr lvl ++ '\x7d' :: rest)) by simp]
      exact skipWs_ws_head _ _ _ (allWs_nl_ind _) (by decide)
    rw [hskip]
    rw [show List.take 1 ('"' :: (((p.1 ++ ['"']) ++ ':' :: ' ' :: pv ++ suffix) ++
      '\n' :: (indStr lvl ++ '\x7d' :: rest))) = ['"'] from rfl]
    rw [if_neg (by decide)]
    have hlen : (p :: e').length ≤
        ('\n' :: (joinItems (lvl + 1) (printPairKV p.1 pv :: items') ++
          '\n' :: (indStr lvl ++ '\x7d' :: rest))).length + 1 := by
      have h1 := joinItems_length_ge (lvl + 1) (by omega)
        (printPairKV p.1 pv :: items')
      have h2 := listMapM_length _ _ _ hm
      simp only [List.length_cons, List.length_append] at h1 h2 ⊢
      omega
    rw [show ('\n' :: (joinItems (lvl + 1) (printPairKV p.1 pv :: items') ++
        '\n' :: (indStr lvl ++ '\x7d' :: rest))) =
      ['\n'] ++ joinItems (lvl + 1) (printPairKV p.1 pv :: items') ++
        '\n' :: (indStr lvl ++ '\x7d' :: rest) by simp]
    rw [readPairsAux_rt (p :: e') _ (printPairKV p.1 pv :: items') (lvl + 1)
      ['\n'] (indStr lvl) rest (by simp) hm hOK (by simpa using hlen) rfl
      (allWs_indStr lvl)]

theorem readEntriesAux_rt :
    ∀ (l : List Entry) (f : Nat) (items : List PyStr) (lvl : Nat)
      (w wc rest : PyStr),
      l ≠ [] → listMapM (printEntry lvl) l = some items →
      l.all entryOKb = true → l.length ≤ f →
      allWs w = true → allWs wc = true →
      readEntriesAux f (w ++ joinItems lvl items ++ '\n' :: (wc ++ ']' :: rest)) =
        some (l, rest) := by
  intro l
  induction l with
  | nil => intro f items lvl w wc rest hne; exact absurd rfl hne
  | cons e l' ih =>
    intro f items lvl w wc rest _ hm hOK hf hw hwc
    obtain ⟨pe, items', hpe, hm', rfl⟩ := listMapM_cons_some _ e l' items hm
    obtain ⟨pits, hpits, rfl⟩ := printEntry_inv lvl e pe hpe
    simp only [List.all_cons, Bool.and_eq_true] at hOK
    match f, hf with
    | f' + 1, hf =>
      cases l' with
      | nil =>
        have hit : items' = [] := List.length_eq_zero.mp
          (by rw [listMapM_length _ _ _ hm']; rfl)
        subst hit
        rw [show joinItems lvl [joinContainer '\x7b' '\x7d' lvl pits] =
          indStr lvl ++ joinContainer '\x7b' '\x7d' lvl pits from rfl]
        unfold readEntriesAux
        rw [show w ++ (indStr lvl ++ joinContainer '\x7b' '\x7d' lvl pits) ++
            '\n' :: (wc ++ ']' :: rest) =
          (w ++ indStr lvl) ++ joinContainer '\x7b' '\x7d' lvl pits ++
            ('\n' :: (wc ++ ']' :: rest)) by simp]
        rw [readEntry_rt e lvl pits hpits hOK.1 (w ++ indStr lvl) _
          (allWs_append _ _ hw (allWs_indStr lvl))]
        simp only [optBind_some]
        rw [show ('\n' :: (wc ++ ']' :: rest)) = ('\n' :: wc) ++ ']' :: rest by simp]
        rw [skipWs_ws_head _ _ _ (by
          simp only [allWs, List.all_cons, Bool.and_eq_true]
          refine ⟨by decide, ?_⟩
          simpa [allWs] using hwc) (by decide)]
        rfl
      | cons e2 l'' =>
        obtain ⟨i2, is2, rfl⟩ : ∃ i2 is2, items' = i2 :: is2 := by
          cases hit : items' with
          | nil =>
            have := listMapM_length _ _ _ hm'
            rw [hit] at this
            simp at this
          | cons i2 is2 => exact ⟨i2, is2, rfl⟩
        rw [show joinItems lvl (joinContainer '\x7b' '\x7d' lvl pits :: i2 :: is2) =
          indStr lvl ++ joinContainer '\x7b' '\x7d' lvl pits ++
            ',' :: '\n' :: joinItems lvl (i2 :: is2) from rfl]
        unfold readEntriesAux
        rw [show w ++ (indStr lvl ++ joinContainer '\x7b' '\x7d' lvl pits ++
            ',' :: '\n' :: joinItems lvl (i2 :: is2)) ++
            '\n' :: (wc ++ ']' :: rest) =
          (w ++ indStr lvl) ++ joinContainer '\x7b' '\x7d' lvl pits ++
            (',' :: ('\n' :: (joinItems lvl (i2 :: is2) ++
              '\n' :: (wc ++ ']' :: rest)))) by simp]
        rw [readEntry_rt e lvl pits hpits hOK.1 (w ++ indStr lvl) _
          (allWs_append _ _ hw (allWs_indStr lvl))]
        simp only [optBind_some]
        rw [skipWs_cons_neg ',' _ (by decide)]
        show (do
          let q ← readEntriesAux f' ('\n' ::
            (joinItems lvl (i2 :: is2) ++ '\n' :: (wc ++ ']' :: rest)))
          some (e :: q.1, q.2)) = some (e :: e2 :: l'', rest)
        rw [show ('\n' :: (joinItems lvl (i2 :: is2) ++
            '\n' :: (wc ++ ']' :: rest))) =
          ['\n'] ++ joinItems lvl (i2 :: is2) ++ '\n' :: (wc ++ ']' :: rest)
          by simp]
        rw [ih f' (i2 :: is2) lvl ['\n'] wc rest (by simp) hm' hOK.2 (by
          have := hf
          simp only [List.length_cons] at this ⊢
          omega) rfl hwc]
        rfl

theorem readEntries_rt (l : List Entry) (lvl : Nat) (items : List PyStr)
    (hm : listMapM (printEntry (lvl + 1)) l = some items)
    (hOK : l.all entryOKb = true) (w rest : PyStr) (hw : allWs w = true) :
    readEntries (w ++ joinContainer '[' ']' lvl items ++ rest) = some (l, rest) := by
  cases l with
  | nil =>
    have hit : items = [] := List.length_eq_zero.mp
      (by rw [listMapM_length _ _ _ hm]; rfl)
    subst hit
    unfold readEntries
    rw [show w ++ joinContainer '[' ']' lvl [] ++ rest = w ++ '[' :: (']' :: rest) by
      simp [joinContainer]]
    rw [readLit_ws '[' w _ hw (by decide)]
    simp only [optBind_some]
    rw [skipWs_cons_neg ']' rest (by decide)]
    rw [show List.take 1 (']' :: rest) = [']'] from rfl]
    rw [if_pos rfl]
    rw [show List.drop 1 (']' :: rest) = rest from rfl]
  | cons e l' =>
    obtain ⟨pe, items', hpe, hm', rfl⟩ := listMapM_cons_some _ e l' items hm
    obtain ⟨t1, ht1⟩ := printEntry_head (lvl + 1) e pe hpe
    subst ht1
    have hjoin : ∃ suffix, joinItems (lvl + 1) (('\x7b' :: t1) :: items') =
        indStr (lvl + 1) ++ '\x7b' :: (t1 ++ suffix) := by
      cases items' with
      | nil => exact ⟨[], by simp [joinItems]⟩
      | cons i2 is2 =>
        exact ⟨',' :: '\n' :: joinItems (lvl + 1) (i2 :: is2), by
          rw [show joinItems (lvl + 1) (('\x7b' :: t1) :: i2 :: is2) =
            indStr (lvl + 1) ++ ('\x7b' :: t1) ++
              ',' :: '\n' :: joinItems (lvl + 1) (i2 :: is2) from rfl]
          simp⟩
    obtain ⟨suffix, hsuffix⟩ := hjoin
    rw [show joinContainer '[' ']' lvl (('\x7b' :: t1) :: items') =
      '[' :: '\n' :: (joinItems (lvl + 1) (('\x7b' :: t1) :: items') ++
        '\n' :: (indStr lvl ++ [']'])) from rfl]
    unfold readEntries
    rw [show w ++ ('[' :: '\n' :: (joinItems (lvl + 1) (('\x7b' :: t1) :: items') ++
        '\n' :: (indStr lvl ++ [']']))) ++ rest =
      w ++ '[' :: ('\n' :: (joinItems (lvl + 1) (('\x7b' :: t1) :: items') ++
        '\n' :: (indStr lvl ++ ']' :: rest))) by simp]
    rw [readLit_ws '[' w _ hw (by decide)]
    simp only [optBind_some]
    have hskip : skipWs ('\n' :: (joinItems (lvl + 1) (('\x7b' :: t1) :: items') ++
        '\n' :: (indStr lvl ++ ']' :: rest))) =
        '\x7b' :: (t1 ++ suffix ++ '\n' :: (indStr lvl ++ ']' :: rest)) := by
      rw [hsuffix]
      rw [show ('\n' :: (indStr (lvl + 1) ++ '\x7b' :: (t1 ++ suffix) ++
          '\n' :: (indStr lvl ++ ']' :: rest))) =
        ('\n' :: indStr (lvl + 1)) ++
          '\x7b' :: (t1 ++ suffix ++ '\n' :: (indStr lvl ++ ']' :: rest)) by simp]
      exact skipWs_ws_head _ _ _ (allWs_nl_ind _) (by decide)
    rw [hskip]
    rw [show List.take 1 ('\x7b' ::
      (t1 ++ suffix ++ '\n' :: (indStr lvl ++ ']' :: rest))) = ['\x7b'] from rfl]
    rw [if_neg (by decide)]
    have hlen : (e :: l').length ≤
        ('\n' :: (joinItems (lvl + 1) (('\x7b' :: t1) :: items') ++
          '\n' :: (indStr lvl ++ ']' :: rest))).length + 1 := by
      have h1 := joinItems_length_ge (lvl + 1) (by omega) (('\x7b' :: t1) :: items')
      have h2 := listMapM_length _ _ _ hm
      simp only [List.length_cons, List.length_append] at h1 h2 ⊢
      omega
    rw [show ('\n' :: (joinItems (lvl + 1) (('\x7b' :: t1) :: items') ++
        '\n' :: (indStr lvl ++ ']' :: rest))) =
      ['\n'] ++ joinItems (lvl + 1) (('\x7b' :: t1) :: items') ++
        '\n' :: (indStr lvl ++ ']' :: rest) by simp]
    rw [readEntriesAux_rt (e :: l') _ (('\x7b' :: t1) :: items') (lvl + 1)
      ['\n'] (indStr lvl) rest (by simp) hm hOK (by simpa using hlen) rfl
      (allWs_indStr lvl)]

/-- C7: for every catalogue whose entry sequence consists of well-formed
(JSON-representable) entries, serializing it with `to_json` and loading the
result back with `load_json` yields an entry sequence equal, field for
field, to the original. -/
theorem to_json_load_json_roundtrip (entries : List Entry)
    (h : entriesOKb entries = true) :
    ∃ s, to_json entries = some s ∧ load_json s = some entries := by
  have hOK : entries.all entryOKb = true := h
  obtain ⟨items, hitems⟩ := listMapM_isSome (printEntry 1) entries (by
    intro e he
    refine printEntry_isSome 1 e ?_
    rw [List.all_eq_true] at hOK
    exact hOK e he)
  refine ⟨joinContainer '[' ']' 0 items, ?_, ?_⟩
  · unfold to_json
    rw [hitems]
    rfl
  · have hre : readEntries ([] ++ joinContainer '[' ']' 0 items ++ []) =
        some (entries, []) :=
      readEntries_rt entries 0 items hitems hOK [] [] rfl
    rw [List.nil_append, List.append_nil] at hre
    unfold load_json
    rw [hre]
    rfl

theorem to_json_load_json_roundtrip_witness :
    entriesOKb entriesW7 = true ∧
      ∃ s, to_json entriesW7 = some s ∧ load_json s = some entriesW7 :=
  ⟨by decide, to_json_load_json_roundtrip entriesW7 (by decide)⟩

/-- C8: the catalogue is an ordered, append-only sequence: `add_entry`
adds the new entry at the end and changes nothing else, so appending E1
then E2 yields a sequence, and a serialized JSON array, listing E1 before
E2. -/
theorem add_entry_append_order (sm : List Entry) (e1 e2 : Entry)
    (p1 p2 : PyStr) (h1 : printEntry 1 e1 = some p1)
    (h2 : printEntry 1 e2 = some p2) :
    add_entry sm e1 = sm ++ [e1] ∧
    add_entry (add_entry sm e1) e2 = sm ++ [e1, e2] ∧
    to_json (add_entry (add_entry [] e1) e2) =
      some ('[' :: '\n' :: ((indStr 1 ++ p1 ++ ',' :: '\n' ::
        (indStr 1 ++ p2)) ++ '\n' :: (indStr 0 ++ [']']))) := by
  refine ⟨rfl, by simp [add_entry], ?_⟩
  have hm : listMapM (printEntry 1) [e1, e2] = some [p1, p2] := by
    simp [listMapM, h1, h2]
  show to_json [e1, e2] = _
  unfold to_json
  rw [hm]
  simp [joinContainer, joinItems]

theorem add_entry_append_order_witness :
    add_entry [] entryW8a = [] ++ [entryW8a] ∧
    add_entry (add_entry [] entryW8a) entryW8b = [] ++ [entryW8a, entryW8b] ∧
    to_json (add_entry (add_entry [] entryW8a) entryW8b) =
      some ('[' :: '\n' :: ((indStr 1 ++ pW8a ++ ',' :: '\n' ::
        (indStr 1 ++ pW8b)) ++ '\n' :: (indStr 0 ++ [']']))) :=
  add_entry_append_order [] entryW8a entryW8b pW8a pW8b (by rfl) (by rfl)
